import Mathlib

/-!
Shallow embedding of the outbound-query engine of the unbnd resolver,
covering the target-selection policy (iterator/iter_utils.c), the wire
domain-name helpers (util/data/dname.c), and the TCP pool / serviced-query
interface (services/outside_network.h).

Machine integers are modelled as `Int`/`Nat`; the intrusive singly linked
`result_list` of a delegation point is modelled as a `List`.
-/

namespace Unbnd

/-! ## Target selection (iterator/iter_utils.c) -/

/-- Tunable constants of the iterator.  In the source these are the macros
`RTT_BAND`, `USEFUL_SERVER_TOP_TIMEOUT`, `UNKNOWN_SERVER_NICENESS`,
`OUTBOUND_MSG_RETRY` (defined outside the given corpus, treated as
configuration per the spec) together with `iter_env->supports_ipv6`. -/
structure IterCfg where
  RTT_BAND : Int
  USEFUL_SERVER_TOP_TIMEOUT : Int
  UNKNOWN_SERVER_NICENESS : Int
  OUTBOUND_MSG_RETRY : Nat
  supports_ipv6 : Bool
  deriving Repr, DecidableEq

/-- Result of `infra_get_lame_rtt` for one address: the `lame`, `dnsseclame`
and `rtt` out-parameters.  The infra cache is an external collaborator; each
candidate carries the answer the cache would give for it. -/
structure InfraInfo where
  lame : Bool
  dnsseclame : Bool
  rtt : Int
  deriving Repr, DecidableEq

/-- One `struct delegpt_addr` of the candidate list, together with the
environment facts consulted for it: whether `donotq_lookup` finds the
address, whether `addr_is_ip6` holds, and the infra cache answer
(`none` models `infra_get_lame_rtt` returning 0, no information).
`tag` stands for the address identity (used to track candidates across
the pure-functional updates). -/
structure DelegptAddr where
  tag : Nat
  onDonotq : Bool
  isIp6 : Bool
  infra : Option InfraInfo
  sel_rtt : Int
  attempts : Nat
  deriving Repr, DecidableEq

/-- Embeds `iter_filter_unsuitable` (iter_utils.c:138-165): returns the
selection rtt for a candidate, or -1 for an unsuitable one. -/
def iter_filter_unsuitable (cfg : IterCfg) (a : DelegptAddr) : Int :=
  if a.onDonotq then -1  /- server is on the donotquery list -/
  else if !cfg.supports_ipv6 && a.isIp6 then -1  /- there is no ip6 available -/
  else match a.infra with
    | some i =>
      if i.lame then -1  /- server is lame -/
      else if i.rtt ≥ cfg.USEFUL_SERVER_TOP_TIMEOUT then -1  /- unresponsive -/
      else if i.dnsseclame then i.rtt + cfg.USEFUL_SERVER_TOP_TIMEOUT  /- nonpref -/
      else i.rtt
    | none => cfg.UNKNOWN_SERVER_NICENESS  /- no server information present -/

/-- Embeds the best-rtt tracking of `iter_fill_rtt` (iter_utils.c:178-185):
the first suitable rtt is kept (`got_it` becomes 1), any strictly smaller
suitable rtt replaces it. -/
def rtt_fold_step (best : Option Int) (a : DelegptAddr) : Option Int :=
  if a.sel_rtt = -1 then best
  else match best with
    | none => some a.sel_rtt
    | some b => if a.sel_rtt < b then some a.sel_rtt else some b

/-- Embeds `iter_fill_rtt` (iter_utils.c:168-188): store `sel_rtt` on every
candidate of the result list and return the fastest rtt among the suitable
ones; `none` models `got_it == 0`, no suitable target. -/
def iter_fill_rtt (cfg : IterCfg) (l : List DelegptAddr) :
    List DelegptAddr × Option Int :=
  let filled := l.map (fun a => { a with sel_rtt := iter_filter_unsuitable cfg a })
  (filled, filled.foldl rtt_fold_step none)

/-- The classification test of the loop body of `iter_filter_order`
(iter_utils.c:217-223): a suitable candidate is counted and swapped to the
front when its selection rtt is within `RTT_BAND` of `low_rtt`, in either
direction, written as the two comparison branches of the source. -/
def swap_to_front_test (cfg : IterCfg) (low : Int) (a : DelegptAddr) : Bool :=
  (low ≤ a.sel_rtt && a.sel_rtt - low ≤ cfg.RTT_BAND) ||
  (a.sel_rtt < low && low - a.sel_rtt ≤ cfg.RTT_BAND)

/-- A candidate that the loop of `iter_filter_order` counts into `got_num`:
not skipped as unsuitable, and within the rtt band. -/
def counted (cfg : IterCfg) (low : Int) (a : DelegptAddr) : Bool :=
  !(a.sel_rtt = -1) && swap_to_front_test cfg low a

/-- Embeds the while loop of `iter_filter_order` (iter_utils.c:206-235) on
the part of the list after the head.  In the source the head node is never
unlinked: `prev` is NULL only on the first iteration, and on every branch of
that iteration `prev` is set to the head, so `swap_to_front && prev` fails
exactly for the head.  Each later in-band node is unlinked and consed onto
the current `dp->result_list` head, so a node swapped later ends up in front
of every node swapped earlier.  The walk therefore splits the tail into the
swapped nodes, ordered latest-swap first (`moved`), and the nodes left in
place in their original order (`kept`), and counts the in-band nodes. -/
def order_walk (cfg : IterCfg) (low : Int) :
    List DelegptAddr → List DelegptAddr × List DelegptAddr × Nat
  | [] => ([], [], 0)
  | a :: rest =>
    let w := order_walk cfg low rest
    if a.sel_rtt = -1 then (w.1, a :: w.2.1, w.2.2)  /- skip unsuitable targets -/
    else if swap_to_front_test cfg low a then (w.1 ++ [a], w.2.1, w.2.2 + 1)
    else (w.1, a :: w.2.1, w.2.2)

/-- Embeds `iter_filter_order` (iter_utils.c:192-238): fill in the selection
rtts, and when some target is suitable reorder the result list, putting the
rtt-band targets in front.  Returns `(got_num, new result_list, low_rtt)`;
on `got_it == 0` the C function returns 0 before the reorder, leaving the
just-filled list and the caller's `selrtt` unread (modelled as 0). -/
def iter_filter_order (cfg : IterCfg) (l : List DelegptAddr) :
    Nat × List DelegptAddr × Int :=
  match (iter_fill_rtt cfg l).2 with
  | none => (0, (iter_fill_rtt cfg l).1, 0)
  | some low =>
    match (iter_fill_rtt cfg l).1 with
    | [] => (0, [], low)
    | h :: t =>
      let w := order_walk cfg low t
      let nh := if counted cfg low h then w.2.2 + 1 else w.2.2
      (nh, w.1 ++ h :: w.2.1, low)

/-- Outcome of `iter_server_selection`: the returned candidate (with its
incremented attempt counter), the delegation point's result list after the
call, and the `dnssec_expected` out-parameter after the call. -/
structure SelResult where
  chosen : Option DelegptAddr
  result_list : List DelegptAddr
  dnssec_expected : Bool
  deriving Repr, DecidableEq

/-- Embeds `iter_server_selection` (iter_utils.c:240-283).  `r` is the value
drawn from `ub_random(env->rnd)`; `de` the incoming `*dnssec_expected`.
For `num == 1` the source takes the list head; for larger `num` it walks
`sel = r % num` steps from the head, so it picks the element at index
`r % num`, increments its attempt counter in place, and unlinks it when the
counter reaches `OUTBOUND_MSG_RETRY`.  The `if(!a) return NULL` robustness
branch is the `none` case of the index lookup. -/
def iter_server_selection (cfg : IterCfg) (l : List DelegptAddr)
    (r : Nat) (de : Bool) : SelResult :=
  let fo := iter_filter_order cfg l
  let num := fo.1
  let lst := fo.2.1
  let selrtt := fo.2.2
  if num = 0 then ⟨none, lst, de⟩
  else
    let de' := if selrtt ≥ cfg.USEFUL_SERVER_TOP_TIMEOUT then false else de
    if num = 1 then
      match lst with
      | [] => ⟨none, [], de'⟩
      | a :: rest =>
        let a' := { a with attempts := a.attempts + 1 }
        if a'.attempts < cfg.OUTBOUND_MSG_RETRY then ⟨some a', a' :: rest, de'⟩
        else ⟨some a', rest, de'⟩
    else
      let sel := r % num
      match lst.get? sel with
      | none => ⟨none, lst, de'⟩  /- robustness -/
      | some a =>
        let a' := { a with attempts := a.attempts + 1 }
        if a'.attempts < cfg.OUTBOUND_MSG_RETRY then ⟨some a', lst.set sel a', de'⟩
        else ⟨some a', lst.eraseIdx sel, de'⟩

/-! ## Domain-name wire helpers (util/data/dname.c) -/

/-- Embeds `tolower` from ctype.h as used on the octets of a dname label:
an ASCII uppercase letter becomes lowercase, any other octet is unchanged. -/
def tolowerB (c : Nat) : Nat :=
  if 65 ≤ c ∧ c ≤ 90 then c + 32 else c

/-- Embeds the inner loop of `query_dname_compare` (dname.c:88-96): compare
`n` octets of the two label bodies lowercased, returning `some` of the early
return value on the first difference, `none` when all `n` octets match.
Octets are read as bytes (`% 256` models the `uint8_t` load). -/
def cmp_label_bytes : Nat → List Nat → List Nat → Option Int
  | 0, _, _ => none
  | n + 1, r1, r2 =>
    let c1 := tolowerB (r1.headD 0 % 256)
    let c2 := tolowerB (r2.headD 0 % 256)
    if c1 ≠ c2 then (if c1 < c2 then some (-1) else some 1)
    else cmp_label_bytes n r1.tail r2.tail

/-- Embeds `query_dname_compare` (dname.c:71-102) on uncompressed wire
names modelled as byte lists.  `lab1`/`lab2` are the label length octets at
the current positions; the loop runs while either is nonzero, returns ±1 on
a length difference, compares the label bodies lowercased, and steps both
names past the compared label. -/
def query_dname_compare (d1 d2 : List Nat) : Int :=
  let lab1 := d1.headD 0 % 256
  let lab2 := d2.headD 0 % 256
  if h0 : lab1 = 0 ∧ lab2 = 0 then 0
  else if h1 : lab1 ≠ lab2 then
    if lab1 < lab2 then -1 else 1
  else
    match cmp_label_bytes lab1 d1.tail d2.tail with
    | some r => r
    | none => query_dname_compare (d1.tail.drop lab1) (d2.tail.drop lab1)
termination_by d1.length
decreasing_by
  simp only [List.length_drop, List.length_tail]
  have hne : d1.headD 0 % 256 ≠ 0 := fun h => h0 ⟨h, by omega⟩
  have : d1 ≠ [] := by rintro rfl; simp at hne
  have : 1 ≤ d1.length := List.length_pos.mpr this
  omega

/-- An uncompressed wire-format domain name: a sequence of labels, each a
length octet in 1..63 followed by that many content octets, terminated by
the root label 0 and nothing after it. -/
def isWireName : List Nat → Bool
  | [] => false
  | l :: rest =>
    if l = 0 then rest.isEmpty
    else (1 ≤ l && l ≤ 63) && (decide (l ≤ rest.length)
      && ((rest.take l).all (fun b => b < 256) && isWireName (rest.drop l)))
termination_by l => l.length
decreasing_by
  simp only [List.length_drop, List.length_cons]
  omega

/-- Model of `ldns_buffer`: the octet data and the read position.  Octet
reads take the byte value (`% 256`). -/
structure LdnsBuffer where
  data : List Nat
  position : Nat
  deriving Repr, DecidableEq

/-- Embeds `ldns_buffer_remaining`: octets between position and limit. -/
def ldns_buffer_remaining (b : LdnsBuffer) : Nat :=
  b.data.length - b.position

/-- Embeds `ldns_buffer_read_u8`: the octet at the current position, and the
buffer advanced one position. -/
def ldns_buffer_read_u8 (b : LdnsBuffer) : Nat × LdnsBuffer :=
  (b.data.getD b.position 0 % 256, { b with position := b.position + 1 })

/-- Embeds `ldns_buffer_limit`. -/
def ldns_buffer_limit (b : LdnsBuffer) : Nat :=
  b.data.length

/-- Embeds `ldns_buffer_set_position`. -/
def ldns_buffer_set_position (b : LdnsBuffer) (pos : Nat) : LdnsBuffer :=
  { b with position := pos }

/-- Embeds `ldns_buffer_skip`. -/
def ldns_buffer_skip (b : LdnsBuffer) (n : Nat) : LdnsBuffer :=
  { b with position := b.position + n }

/-- The constant `LDNS_MAX_DOMAINLEN`. -/
def LDNS_MAX_DOMAINLEN : Nat := 255

/-- The constant `MAX_COMPRESS_POS` (dname.c:122): maximum compression
pointer position pointed to; the loop bitmap covers positions below it. -/
def MAX_COMPRESS_POS : Nat := 16384

/-- Embeds `LABEL_IS_PTR` (msgparse.h): the top two bits of the length
octet are set.  For a byte value this is exactly being at least 0xc0. -/
def LABEL_IS_PTR (l : Nat) : Bool :=
  192 ≤ l

/-- Embeds `PTR_OFFSET` (msgparse.h): `((l & 0x3f) << 8) | b2` for a byte
`b2`; masking with 0x3f is `% 64` and, as the low eight bits of the shifted
value are clear, the bitwise or is addition. -/
def PTR_OFFSET (l b2 : Nat) : Nat :=
  l % 64 * 256 + b2

/-- Embeds `loopcheck` (dname.c:126-136): test-and-set of the bit for `pos`
in the loop-detection bitmap; the bitmap is modelled as the list of pointer
positions whose bit is already set.  Returns whether the bit was set before
and the updated bitmap. -/
def loopcheck (loop : List Nat) (pos : Nat) : Bool × List Nat :=
  (pos ∈ loop, pos :: loop)

/-- Fuel-indexed embedding of the while loop of `pkt_dname_len`
(dname.c:151-184).  The state is the buffer, the accumulated name length
`len`, the loop bitmap and `endpos` (0 means not yet recorded, as in the
source).  `none` means the fuel ran out; `pkt_dname_len_fuel` is proven
large enough for every input, so the loop always terminates. -/
def pkt_dname_len_loop :
    Nat → LdnsBuffer → Nat → List Nat → Nat → Option (Nat × LdnsBuffer)
  | 0, _, _, _, _ => none
  | fuel + 1, pkt, len, loop, endpos =>
    if ldns_buffer_remaining pkt < 1 then some (0, pkt)
    else
      let labellen := (ldns_buffer_read_u8 pkt).1
      let pkt1 := (ldns_buffer_read_u8 pkt).2
      if LABEL_IS_PTR labellen then
        if ldns_buffer_remaining pkt1 < 1 then some (0, pkt1)
        else
          let b2 := (ldns_buffer_read_u8 pkt1).1
          let pkt2 := (ldns_buffer_read_u8 pkt1).2
          let ptr := PTR_OFFSET labellen b2
          if (loopcheck loop ptr).1 then some (0, pkt2)  /- loop! -/
          else if ldns_buffer_limit pkt2 ≤ ptr then some (0, pkt2)  /- out of bounds! -/
          else
            let endpos' := if endpos = 0 then pkt2.position else endpos
            pkt_dname_len_loop fuel (ldns_buffer_set_position pkt2 ptr) len
              (loopcheck loop ptr).2 endpos'
      else
        if labellen > 0x3f then some (0, pkt1)  /- label too long -/
        else
          let len' := len + 1 + labellen
          if len' > LDNS_MAX_DOMAINLEN then some (0, pkt1)
          else if labellen = 0 then
            /- end of dname: restore endpos when a pointer was followed -/
            some (len', if endpos ≠ 0 then ldns_buffer_set_position pkt1 endpos else pkt1)
          else if ldns_buffer_remaining pkt1 < labellen then some (0, pkt1)
          else pkt_dname_len_loop fuel (ldns_buffer_skip pkt1 labellen) len' loop endpos

/-- Fuel that dominates the loop measure: every pointer jump marks a fresh
bit of the 16 KiB bitmap and every label step grows `len` toward the
maximum domain length, so this many iterations always suffice. -/
def pkt_dname_len_fuel : Nat := MAX_COMPRESS_POS * 258 + 258

/-- Embeds `pkt_dname_len` (dname.c:139-189): length of the possibly
compressed dname at the buffer position, 0 on parse failure, together with
the buffer after the call. -/
def pkt_dname_len (pkt : LdnsBuffer) : Nat × LdnsBuffer :=
  match pkt_dname_len_loop pkt_dname_len_fuel pkt 0 [] 0 with
  | some r => r
  | none => (0, pkt)

/-! ## TCP connection pool (services/outside_network.h, spec §4.3) -/

/-- Modelled from the spec: the body of `pending_tcp_query` and the TCP
slot/wait-queue handling live in services/outside_network.c, which is not in
the corpus; only outside_network.h is.  A waiting TCP request per
`struct waiting_tcp`: its identity, the owned packet octets, and the
absolute time its timeout timer fires.  Per the header, the timer keeps
running whether the query is waiting for a buffer or the reply is pending,
and it starts at submission. -/
structure TcpRequest where
  rid : Nat
  pkt : List Nat
  deadline : Nat
  deriving Repr, DecidableEq

/-- Modelled from the spec: the TCP pool portion of `struct outside_network`
(outside_network.h:104-112): the freelist of slots, the slots bound to an
in-flight request, and the FIFO wait queue. -/
structure TcpPool where
  freeSlots : List Nat
  inFlight : List (Nat × TcpRequest)
  waitQueue : List TcpRequest
  deriving Repr, DecidableEq

/-- Events driving the TCP pool: a query submission (`pending_tcp_query`),
a timeout timer firing for a request, and a reply completing a slot. -/
inductive TcpEvent where
  | submit (rid : Nat) (pkt : List Nat) (timeout : Nat)
  | timerFire (rid : Nat)
  | slotReply (slot : Nat)
  deriving Repr, DecidableEq

/-- Callbacks delivered to the party that submitted a TCP query. -/
inductive TcpOut where
  | timeoutCb (rid : Nat)
  | replyCb (rid : Nat)
  deriving Repr, DecidableEq

/-- Unlink the first wait-queue entry with the given request identity. -/
def remove_waiting (rid : Nat) : List TcpRequest → List TcpRequest
  | [] => []
  | q :: rest => if q.rid = rid then rest else q :: remove_waiting rid rest

/-- Modelled from the spec: when a slot is returned to the freelist and the
wait queue is non-empty, its head is popped and submitted to the now-free
slot (spec §4.3, slot completion).  The request keeps its deadline: the
timer kept running while it waited. -/
def tcp_dispatch (p : TcpPool) : TcpPool :=
  match p.freeSlots, p.waitQueue with
  | s :: fs, q :: qs => ⟨fs, (s, q) :: p.inFlight, qs⟩
  | _, _ => p

/-- Modelled from the spec: one step of the TCP pool at time `now`
(spec §4.3).  Submit pops a free slot if any, else appends to the wait
queue; in both cases the request's timer is armed for `now + timeout`.
A timer firing for a still-queued request signals Timeout and unlinks it,
leaving the slots untouched; firing for an in-flight request signals
Timeout, frees the slot and dispatches the queue head.  A reply dispatches
the callback, frees the slot and dispatches the queue head. -/
def tcp_step (now : Nat) (p : TcpPool) : TcpEvent → TcpPool × List TcpOut
  | .submit rid pkt timeout =>
    let req : TcpRequest := ⟨rid, pkt, now + timeout⟩
    match p.freeSlots with
    | s :: fs => (⟨fs, (s, req) :: p.inFlight, p.waitQueue⟩, [])
    | [] => (⟨p.freeSlots, p.inFlight, p.waitQueue ++ [req]⟩, [])
  | .timerFire rid =>
    if p.waitQueue.any (fun q => q.rid = rid) then
      (⟨p.freeSlots, p.inFlight, remove_waiting rid p.waitQueue⟩,
        [TcpOut.timeoutCb rid])
    else
      match p.inFlight.find? (fun sq => sq.2.rid = rid) with
      | some (s, _) =>
        (tcp_dispatch ⟨s :: p.freeSlots,
          p.inFlight.filter (fun sq => !(sq.2.rid = rid)), p.waitQueue⟩,
          [TcpOut.timeoutCb rid])
      | none => (p, [])
  | .slotReply slot =>
    match p.inFlight.find? (fun sq => sq.1 = slot) with
    | some (_, req) =>
      (tcp_dispatch ⟨slot :: p.freeSlots,
        p.inFlight.filter (fun sq => !(sq.1 = slot)), p.waitQueue⟩,
        [TcpOut.replyCb req.rid])
    | none => (p, [])

/-- Run a list of timestamped events through the pool, collecting the
callbacks delivered along the way. -/
def tcp_run : List (Nat × TcpEvent) → TcpPool → TcpPool × List TcpOut
  | [], p => (p, [])
  | (now, e) :: evs, p =>
    let (p1, out1) := tcp_step now p e
    let (p2, out2) := tcp_run evs p1
    (p2, out1 ++ out2)

/-- A request identity is present in the pool: queued or bound to a slot. -/
def tcp_has_rid (p : TcpPool) (rid : Nat) : Bool :=
  p.waitQueue.any (fun q => q.rid = rid) || p.inFlight.any (fun sq => sq.2.rid = rid)

/-- A submission event for the given request identity. -/
def is_submit_of (rid : Nat) : TcpEvent → Bool
  | .submit r _ _ => r = rid
  | _ => false

/-- A callback addressed to the given request identity. -/
def out_for_rid (rid : Nat) : TcpOut → Bool
  | .timeoutCb r => r = rid
  | .replyCb r => r = rid

/-! ## Serviced queries (services/outside_network.h, spec §4.4) -/

/-- Key of a serviced query in the `serviced` rbtree
(outside_network.h:91-92, 204-218): the canonical query octets, the
destination address, and the dnssec flag. -/
structure ServicedKey where
  qbuf : List Nat
  addr : Nat
  dnssec : Bool
  deriving Repr, DecidableEq

/-- The `serviced_query_status` enumeration (outside_network.h:220-231). -/
inductive ServicedStatus where
  | serviced_initial
  | serviced_query_UDP_EDNS
  | serviced_query_UDP
  | serviced_query_TCP_EDNS
  | serviced_query_TCP
  deriving Repr, DecidableEq

/-- A `struct service_callback` (outside_network.h:189-196). -/
structure ServiceCallback where
  cb : Nat
  cb_arg : Nat
  deriving Repr, DecidableEq

/-- A `struct serviced_query` restricted to the fields the submission path
touches: key, state, and subscriber list. -/
structure ServicedQuery where
  key : ServicedKey
  status : ServicedStatus
  cblist : List ServiceCallback
  deriving Repr, DecidableEq

/-- Modelled from the spec: `outnet_serviced_query`
(outside_network.h:330-355, body in outside_network.c, not in the corpus).
Attach-or-create per spec §4.4: if an entry with the same key exists,
append the new (callback, argument) to its subscriber list and return it;
otherwise insert a new entry in state initial.  The returned flag records
whether a new entry (and hence a new wire query) was created. -/
def outnet_serviced_query (serviced : List ServicedQuery) (key : ServicedKey)
    (cb cb_arg : Nat) : List ServicedQuery × ServicedQuery × Bool :=
  match serviced.find? (fun e => e.key = key) with
  | some e =>
    (serviced.map (fun x =>
        if x.key = key then { x with cblist := x.cblist ++ [⟨cb, cb_arg⟩] } else x),
      { e with cblist := e.cblist ++ [⟨cb, cb_arg⟩] }, false)
  | none =>
    let e : ServicedQuery := ⟨key, .serviced_initial, [⟨cb, cb_arg⟩]⟩
    (serviced ++ [e], e, true)

/-! ## Concrete instances and iterated selection -/

/-- Repeated selection against the same delegation point: the result list
left by each call feeds the next call. -/
def sel_iterate (cfg : IterCfg) (r : Nat) (de : Bool)
    (l0 : List DelegptAddr) : Nat → List DelegptAddr
  | 0 => l0
  | k + 1 => (iter_server_selection cfg (sel_iterate cfg r de l0 k) r de).result_list

/-- The configuration of the spec's worked example: `RTT_BAND = 50`,
`USEFUL_SERVER_TOP_TIMEOUT = 376`; the remaining constants are set to the
stock values 376 (unknown-server niceness) and 5 (retry limit). -/
def cfg_example : IterCfg := ⟨50, 376, 376, 5, true⟩

/-- Candidate A of the spec example: cached rtt 20. -/
def addrA : DelegptAddr := ⟨1, false, false, some ⟨false, false, 20⟩, 0, 0⟩

/-- Candidate B of the spec example: cached rtt 25. -/
def addrB : DelegptAddr := ⟨2, false, false, some ⟨false, false, 25⟩, 0, 0⟩

/-- Candidate C of the spec example: cached rtt 400, above the top
timeout 376. -/
def addrC : DelegptAddr := ⟨3, false, false, some ⟨false, false, 400⟩, 0, 0⟩

/-- A third in-band candidate (cached rtt 30) used to exhibit the order of
the front block after reordering. -/
def addrE : DelegptAddr := ⟨3, false, false, some ⟨false, false, 30⟩, 0, 0⟩

/-- A candidate with a normal cached rtt of 350, just below the example's
top timeout of 376. -/
def addrN : DelegptAddr := ⟨1, false, false, some ⟨false, false, 350⟩, 0, 0⟩

/-- A dnssec-lame candidate with cached rtt 4: its selection rtt becomes
4 + 376 = 380, within the band of 350 yet at or above the top timeout. -/
def addrL : DelegptAddr := ⟨2, false, false, some ⟨false, true, 4⟩, 0, 0⟩

/-- The attempt-counter increment applied to the candidate a selection
returns (`++a->attempts`). -/
def bump (a : DelegptAddr) : DelegptAddr :=
  { a with attempts := a.attempts + 1 }

/-! ## Lemmas: the rtt fold of iter_fill_rtt -/

theorem rtt_fold_step_ne_none (acc : Option Int) (a : DelegptAddr)
    (h : ¬ a.sel_rtt = -1) : rtt_fold_step acc a ≠ none := by
  unfold rtt_fold_step
  rw [if_neg h]
  cases acc with
  | none => simp
  | some b => by_cases h2 : a.sel_rtt < b <;> simp [h2]

theorem rtt_fold_none (l : List DelegptAddr) (acc : Option Int) :
    l.foldl rtt_fold_step acc = none ↔ acc = none ∧ ∀ a ∈ l, a.sel_rtt = -1 := by
  induction l generalizing acc with
  | nil => simp
  | cons a t ih =>
    simp only [List.foldl_cons]
    rw [ih]
    by_cases h : a.sel_rtt = -1
    · simp only [rtt_fold_step, if_pos h, List.mem_cons]
      constructor
      · rintro ⟨h1, h2⟩
        exact ⟨h1, fun b hb => hb.elim (fun e => e ▸ h) (h2 b)⟩
      · rintro ⟨h1, h2⟩
        exact ⟨h1, fun b hb => h2 b (Or.inr hb)⟩
    · have hne := rtt_fold_step_ne_none acc a h
      constructor
      · rintro ⟨h1, _⟩
        exact absurd h1 hne
      · rintro ⟨_, h2⟩
        exact absurd (h2 a (List.mem_cons_self a t)) h

theorem rtt_fold_some_mem (l : List DelegptAddr) (acc : Option Int) (low : Int)
    (h : l.foldl rtt_fold_step acc = some low) :
    acc = some low ∨ ∃ a ∈ l, a.sel_rtt = low ∧ ¬ a.sel_rtt = -1 := by
  induction l generalizing acc with
  | nil => exact .inl h
  | cons a t ih =>
    simp only [List.foldl_cons] at h
    rcases ih _ h with h1 | h2
    · unfold rtt_fold_step at h1
      by_cases hs : a.sel_rtt = -1
      · rw [if_pos hs] at h1
        exact .inl h1
      · rw [if_neg hs] at h1
        cases acc with
        | none =>
          refine .inr ⟨a, List.mem_cons_self a t, ?_, hs⟩
          exact Option.some_injective _ h1
        | some b =>
          dsimp only at h1
          by_cases h3 : a.sel_rtt < b
          · rw [if_pos h3] at h1
            exact .inr ⟨a, List.mem_cons_self a t, Option.some_injective _ h1, hs⟩
          · rw [if_neg h3] at h1
            exact .inl h1
    · obtain ⟨x, hx, hx2⟩ := h2
      exact .inr ⟨x, List.mem_cons_of_mem a hx, hx2⟩

/-! ## Lemmas: the reorder walk and iter_filter_order -/

theorem order_walk_eq (cfg : IterCfg) (low : Int) (t : List DelegptAddr) :
    order_walk cfg low t =
      ((t.filter (counted cfg low)).reverse,
       t.filter (fun a => !(counted cfg low a)),
       t.countP (counted cfg low)) := by
  induction t with
  | nil => simp [order_walk]
  | cons a t ih =>
    rw [order_walk, ih]
    by_cases h1 : a.sel_rtt = -1
    · simp [counted, h1, List.filter_cons, List.countP_cons]
    · by_cases h2 : swap_to_front_test cfg low a
      · simp [counted, h1, h2, List.filter_cons, List.countP_cons]
      · simp [counted, h1, h2, List.filter_cons, List.countP_cons]

theorem fill_nil_none (cfg : IterCfg) (l : List DelegptAddr)
    (h : (iter_fill_rtt cfg l).1 = []) : (iter_fill_rtt cfg l).2 = none := by
  unfold iter_fill_rtt at *
  simp only at h ⊢
  rw [h]
  rfl

theorem iter_filter_order_of_none (cfg : IterCfg) (l : List DelegptAddr)
    (h : (iter_fill_rtt cfg l).2 = none) :
    iter_filter_order cfg l = (0, (iter_fill_rtt cfg l).1, 0) := by
  simp only [iter_filter_order, h]

theorem iter_filter_order_of_some (cfg : IterCfg) (l : List DelegptAddr)
    (low : Int) (h : (iter_fill_rtt cfg l).2 = some low) :
    iter_filter_order cfg l =
      ((iter_fill_rtt cfg l).1.countP (counted cfg low),
       ((iter_fill_rtt cfg l).1.filter (counted cfg low)).reverse
         ++ (iter_fill_rtt cfg l).1.filter (fun a => !(counted cfg low a)),
       low) := by
  cases hf : (iter_fill_rtt cfg l).1 with
  | nil =>
    rw [fill_nil_none cfg l hf] at h
    cases h
  | cons hd t =>
    simp only [iter_filter_order, h, hf, order_walk_eq]
    by_cases hc : counted cfg low hd
    · simp [hc, List.filter_cons, List.countP_cons, List.append_assoc]
    · simp [hc, List.filter_cons, List.countP_cons]

theorem ordered_perm_filled (cfg : IterCfg) (l : List DelegptAddr) :
    ((iter_filter_order cfg l).2.1).Perm (iter_fill_rtt cfg l).1 := by
  cases h : (iter_fill_rtt cfg l).2 with
  | none =>
    rw [iter_filter_order_of_none cfg l h]
  | some low =>
    rw [iter_filter_order_of_some cfg l low h]
    exact ((List.reverse_perm _).append_right _).trans (List.filter_append_perm _ _)

theorem num_le_ordered_length (cfg : IterCfg) (l : List DelegptAddr) :
    (iter_filter_order cfg l).1 ≤ (iter_filter_order cfg l).2.1.length := by
  cases h : (iter_fill_rtt cfg l).2 with
  | none =>
    rw [iter_filter_order_of_none cfg l h]
    exact Nat.zero_le _
  | some low =>
    rw [iter_filter_order_of_some cfg l low h]
    simp only [List.length_append, List.length_reverse, List.countP_eq_length_filter]
    exact Nat.le_add_right _ _

theorem ordered_take_num (cfg : IterCfg) (l : List DelegptAddr) (low : Int)
    (h : (iter_fill_rtt cfg l).2 = some low) :
    (iter_filter_order cfg l).2.1.take (iter_filter_order cfg l).1
      = ((iter_fill_rtt cfg l).1.filter (counted cfg low)).reverse := by
  rw [iter_filter_order_of_some cfg l low h]
  have hl : ((iter_fill_rtt cfg l).1.filter (counted cfg low)).reverse.length
      = (iter_fill_rtt cfg l).1.countP (counted cfg low) := by
    simp [List.countP_eq_length_filter]
  conv_lhs => rw [← hl]
  exact List.take_left _ _

theorem ordered_drop_num (cfg : IterCfg) (l : List DelegptAddr) (low : Int)
    (h : (iter_fill_rtt cfg l).2 = some low) :
    (iter_filter_order cfg l).2.1.drop (iter_filter_order cfg l).1
      = (iter_fill_rtt cfg l).1.filter (fun a => !(counted cfg low a)) := by
  rw [iter_filter_order_of_some cfg l low h]
  have hl : ((iter_fill_rtt cfg l).1.filter (counted cfg low)).reverse.length
      = (iter_fill_rtt cfg l).1.countP (counted cfg low) := by
    simp [List.countP_eq_length_filter]
  conv_lhs => rw [← hl]
  exact List.drop_left _ _

theorem front_mem_counted (cfg : IterCfg) (l : List DelegptAddr) (low : Int)
    (h : (iter_fill_rtt cfg l).2 = some low) (i : Nat)
    (hi : i < (iter_filter_order cfg l).1) :
    ∃ a, (iter_filter_order cfg l).2.1.get? i = some a ∧ counted cfg low a = true := by
  have hnum := num_le_ordered_length cfg l
  have hilen : i < (iter_filter_order cfg l).2.1.length := lt_of_lt_of_le hi hnum
  obtain ⟨a, ha⟩ : ∃ a, (iter_filter_order cfg l).2.1.get? i = some a := by
    rw [List.get?_eq_get hilen]
    exact ⟨_, rfl⟩
  refine ⟨a, ha, ?_⟩
  have hmem : a ∈ (iter_filter_order cfg l).2.1.take (iter_filter_order cfg l).1 := by
    refine List.get?_mem (n := i) ?_
    rw [List.get?_take hi]
    exact ha
  rw [ordered_take_num cfg l low h, List.mem_reverse] at hmem
  exact (List.mem_filter.mp hmem).2

theorem sel_of_num_zero (cfg : IterCfg) (l : List DelegptAddr) (r : Nat)
    (de : Bool) (h : (iter_filter_order cfg l).1 = 0) :
    iter_server_selection cfg l r de = ⟨none, (iter_filter_order cfg l).2.1, de⟩ := by
  simp only [iter_server_selection, h]
  simp

theorem sel_chosen_eq (cfg : IterCfg) (l : List DelegptAddr) (r : Nat)
    (de : Bool) (h : 1 ≤ (iter_filter_order cfg l).1) :
    ∃ a, (iter_filter_order cfg l).2.1.get? (r % (iter_filter_order cfg l).1) = some a ∧
      (iter_server_selection cfg l r de).chosen = some (bump a) ∧
      (iter_server_selection cfg l r de).result_list =
        (if a.attempts + 1 < cfg.OUTBOUND_MSG_RETRY
         then (iter_filter_order cfg l).2.1.set (r % (iter_filter_order cfg l).1) (bump a)
         else (iter_filter_order cfg l).2.1.eraseIdx (r % (iter_filter_order cfg l).1)) ∧
      (iter_server_selection cfg l r de).dnssec_expected =
        (if (iter_filter_order cfg l).2.2 ≥ cfg.USEFUL_SERVER_TOP_TIMEOUT
         then false else de) := by
  have hnum := num_le_ordered_length cfg l
  have h0 : ¬ (iter_filter_order cfg l).1 = 0 := by omega
  by_cases h1 : (iter_filter_order cfg l).1 = 1
  · cases hlst : (iter_filter_order cfg l).2.1 with
    | nil =>
      rw [hlst] at hnum
      simp at hnum
      omega
    | cons a rest =>
      refine ⟨a, ?_, ?_⟩
      · rw [h1, Nat.mod_one]
        rfl
      · simp only [iter_server_selection, h0, if_false, h1, if_true, hlst,
          Nat.mod_one, bump]
        by_cases hr : a.attempts + 1 < cfg.OUTBOUND_MSG_RETRY
        · simp [hr, List.set]
        · simp [hr, List.eraseIdx]
  · have h2 : 2 ≤ (iter_filter_order cfg l).1 := by omega
    have hlt : r % (iter_filter_order cfg l).1 < (iter_filter_order cfg l).2.1.length :=
      lt_of_lt_of_le (Nat.mod_lt _ (by omega)) hnum
    obtain ⟨a, ha⟩ : ∃ a,
        (iter_filter_order cfg l).2.1.get? (r % (iter_filter_order cfg l).1) = some a := by
      rw [List.get?_eq_get hlt]
      exact ⟨_, rfl⟩
    refine ⟨a, ha, ?_⟩
    simp only [iter_server_selection, h0, if_false, h1, if_false, ha, bump]
    by_cases hr : a.attempts + 1 < cfg.OUTBOUND_MSG_RETRY
    · simp [hr]
    · simp [hr]

theorem bump_inj {a b : DelegptAddr} (h : bump a = bump b) : a = b := by
  cases a
  cases b
  simp [bump] at h
  simp [h]

theorem set_get?_eq {α : Type} : ∀ (l : List α) (i : Nat) (v : α),
    l.get? i = some v → l.set i v = l
  | [], _, _, h => by cases h
  | a :: t, 0, v, h => by
    have hv : a = v := by injection h
    rw [← hv]
    rfl
  | a :: t, i + 1, v, h => by
    have ih := set_get?_eq t i v h
    show a :: t.set i v = a :: t
    rw [ih]

theorem cons_eraseIdx_perm {α : Type} : ∀ (l : List α) (i : Nat) (v : α),
    l.get? i = some v → (v :: l.eraseIdx i).Perm l
  | [], _, _, h => by cases h
  | a :: t, 0, v, h => by
    have hv : a = v := by injection h
    subst hv
    exact List.Perm.refl _
  | a :: t, i + 1, v, h => by
    have ih := cons_eraseIdx_perm t i v h
    exact (List.Perm.swap a v _).trans (ih.cons a)

theorem filled_map_tag (cfg : IterCfg) (l : List DelegptAddr) :
    (iter_fill_rtt cfg l).1.map DelegptAddr.tag = l.map DelegptAddr.tag := by
  show (l.map _).map _ = _
  rw [List.map_map]
  rfl

theorem ordered_map_tag_perm (cfg : IterCfg) (l : List DelegptAddr) :
    ((iter_filter_order cfg l).2.1.map DelegptAddr.tag).Perm (l.map DelegptAddr.tag) := by
  rw [← filled_map_tag cfg l]
  exact (ordered_perm_filled cfg l).map _

/-! ## C2: suitability filtering -/

theorem unsuit_eq_neg_one_iff (cfg : IterCfg) (a : DelegptAddr)
    (hU : 0 ≤ cfg.UNKNOWN_SERVER_NICENESS)
    (hT : 0 ≤ cfg.USEFUL_SERVER_TOP_TIMEOUT)
    (hr : ∀ i, a.infra = some i → 0 ≤ i.rtt) :
    iter_filter_unsuitable cfg a = -1 ↔
      (a.onDonotq = true ∨ (a.isIp6 = true ∧ cfg.supports_ipv6 = false) ∨
       ∃ i, a.infra = some i ∧
         (i.lame = true ∨ cfg.USEFUL_SERVER_TOP_TIMEOUT ≤ i.rtt)) := by
  unfold iter_filter_unsuitable
  by_cases hd : a.onDonotq = true
  · rw [if_pos hd]
    simp [hd]
  · rw [if_neg hd]
    by_cases h6 : (!cfg.supports_ipv6 && a.isIp6) = true
    · rw [if_pos h6]
      simp only [Bool.and_eq_true, Bool.not_eq_true'] at h6
      simp [h6.1, h6.2]
    · rw [if_neg h6]
      have h6' : ¬ (a.isIp6 = true ∧ cfg.supports_ipv6 = false) := by
        rintro ⟨hi6, hs⟩
        apply h6
        simp [hi6, hs]
      cases hinf : a.infra with
      | none =>
        dsimp only
        constructor
        · intro hc
          exact absurd hc (by omega)
        · rintro (h | h | ⟨i, hsome, _⟩)
          · exact absurd h hd
          · exact absurd h h6'
          · cases hsome
      | some i =>
        dsimp only
        have hri : 0 ≤ i.rtt := hr i hinf
        by_cases hl : i.lame = true
        · rw [if_pos hl]
          constructor
          · intro _
            exact .inr (.inr ⟨i, rfl, .inl hl⟩)
          · intro _
            rfl
        · rw [if_neg hl]
          by_cases htop : i.rtt ≥ cfg.USEFUL_SERVER_TOP_TIMEOUT
          · rw [if_pos htop]
            constructor
            · intro _
              exact .inr (.inr ⟨i, rfl, .inr htop⟩)
            · intro _
              rfl
          · rw [if_neg htop]
            constructor
            · intro hc
              by_cases hdl : i.dnsseclame = true
              · rw [if_pos hdl] at hc
                exact absurd hc (by omega)
              · rw [if_neg hdl] at hc
                exact absurd hc (by omega)
            · rintro (h | h | ⟨j, hsome, hj⟩)
              · exact absurd h hd
              · exact absurd h h6'
              · injection hsome with hij
                subst hij
                rcases hj with hj | hj
                · exact absurd hj hl
                · exact absurd hj htop

theorem unsuit_dnsseclame (cfg : IterCfg) (a : DelegptAddr) (i : InfraInfo)
    (hi : a.infra = some i) (hsurv : ¬ iter_filter_unsuitable cfg a = -1)
    (hdl : i.dnsseclame = true) :
    iter_filter_unsuitable cfg a = i.rtt + cfg.USEFUL_SERVER_TOP_TIMEOUT := by
  unfold iter_filter_unsuitable at *
  rw [hi] at hsurv ⊢
  by_cases hd : a.onDonotq = true
  · rw [if_pos hd] at hsurv
    exact absurd rfl hsurv
  · rw [if_neg hd] at hsurv ⊢
    by_cases h6 : (!cfg.supports_ipv6 && a.isIp6) = true
    · rw [if_pos h6] at hsurv
      exact absurd rfl hsurv
    · rw [if_neg h6] at hsurv ⊢
      dsimp only at hsurv ⊢
      by_cases hl : i.lame = true
      · rw [if_pos hl] at hsurv
        exact absurd rfl hsurv
      · rw [if_neg hl] at hsurv ⊢
        by_cases htop : i.rtt ≥ cfg.USEFUL_SERVER_TOP_TIMEOUT
        · rw [if_pos htop] at hsurv
          exact absurd rfl hsurv
        · rw [if_neg htop] at hsurv ⊢
          rw [if_pos hdl]

theorem unsuit_unknown (cfg : IterCfg) (a : DelegptAddr)
    (hi : a.infra = none) (hsurv : ¬ iter_filter_unsuitable cfg a = -1) :
    iter_filter_unsuitable cfg a = cfg.UNKNOWN_SERVER_NICENESS := by
  unfold iter_filter_unsuitable at *
  rw [hi] at hsurv ⊢
  by_cases hd : a.onDonotq = true
  · rw [if_pos hd] at hsurv
    exact absurd rfl hsurv
  · rw [if_neg hd] at hsurv ⊢
    by_cases h6 : (!cfg.supports_ipv6 && a.isIp6) = true
    · rw [if_pos h6] at hsurv
      exact absurd rfl hsurv
    · rw [if_neg h6] at hsurv ⊢

/-- C2: a candidate is excluded (selection rtt -1) iff it is on the
do-not-query list, or is IPv6 while IPv6 support is off, or the infra cache
reports it lame, or its cached rtt is at least USEFUL_SERVER_TOP_TIMEOUT;
a dnssec-lame survivor gets its cached rtt plus USEFUL_SERVER_TOP_TIMEOUT;
a candidate without infra information gets UNKNOWN_SERVER_NICENESS. -/
theorem C2_filter_unsuitable (cfg : IterCfg) (a : DelegptAddr)
    (hU : 0 ≤ cfg.UNKNOWN_SERVER_NICENESS)
    (hT : 0 ≤ cfg.USEFUL_SERVER_TOP_TIMEOUT)
    (hr : ∀ i, a.infra = some i → 0 ≤ i.rtt) :
    (iter_filter_unsuitable cfg a = -1 ↔
      (a.onDonotq = true ∨ (a.isIp6 = true ∧ cfg.supports_ipv6 = false) ∨
       ∃ i, a.infra = some i ∧
         (i.lame = true ∨ cfg.USEFUL_SERVER_TOP_TIMEOUT ≤ i.rtt)))
    ∧ (∀ i, a.infra = some i → ¬ iter_filter_unsuitable cfg a = -1 →
        i.dnsseclame = true →
        iter_filter_unsuitable cfg a = i.rtt + cfg.USEFUL_SERVER_TOP_TIMEOUT)
    ∧ (a.infra = none → ¬ iter_filter_unsuitable cfg a = -1 →
        iter_filter_unsuitable cfg a = cfg.UNKNOWN_SERVER_NICENESS) :=
  ⟨unsuit_eq_neg_one_iff cfg a hU hT hr,
   fun i hi hs hdl => unsuit_dnsseclame cfg a i hi hs hdl,
   fun hi hs => unsuit_unknown cfg a hi hs⟩

/-- Witness for C2: evaluated on the dnssec-lame candidate addrL under the
example configuration, the second conjunct computes selection rtt
4 + 376. -/
theorem C2_filter_unsuitable_witness :
    iter_filter_unsuitable cfg_example addrL = 4 + 376 :=
  (C2_filter_unsuitable cfg_example addrL (by decide) (by decide)
    (fun i hi => by
      have h1 : some (⟨false, true, 4⟩ : InfraInfo) = some i := hi
      injection h1 with h2
      rw [← h2]
      decide)).2.1
    ⟨false, true, 4⟩ rfl (by decide) rfl

/-! ## C3: the dnssec-expected output -/

/-- C3 counterexample: with survivors at selection rtts 350 (normal) and
380 (dnssec-lame soft penalty) under top timeout 376 and band 50, the draw
`r = 0` picks the 380 candidate after reordering; its selection rtt is at
or above the threshold, yet `dnssec_expected` is NOT cleared: the source
tests `selrtt`, the minimum survivor rtt 350, not the chosen one. -/
theorem C3_counterexample :
    (iter_server_selection cfg_example [addrN, addrL] 0 true).chosen =
        some ⟨2, false, false, some ⟨false, true, 4⟩, 380, 1⟩ ∧
      cfg_example.USEFUL_SERVER_TOP_TIMEOUT ≤ (380 : Int) ∧
      (iter_server_selection cfg_example [addrN, addrL] 0 true).dnssec_expected
        = true := by
  decide

/-- C3 (amended): whenever the best set is non-empty, the dnssec-expected
output is cleared if and only if `selrtt`, the minimum survivor selection
rtt computed by iter_filter_order, is at least USEFUL_SERVER_TOP_TIMEOUT;
the chosen candidate's own rtt is irrelevant. -/
theorem C3_dnssec_expected (cfg : IterCfg) (l : List DelegptAddr) (r : Nat)
    (de : Bool) (h : 1 ≤ (iter_filter_order cfg l).1) :
    (iter_server_selection cfg l r de).dnssec_expected =
      (if (iter_filter_order cfg l).2.2 ≥ cfg.USEFUL_SERVER_TOP_TIMEOUT
       then false else de) := by
  obtain ⟨a, _, _, _, hde⟩ := sel_chosen_eq cfg l r de h
  exact hde

/-- Witness for C3: the counterexample delegation point has a non-empty
best set, and the flag output follows the minimum survivor rtt 350. -/
theorem C3_dnssec_expected_witness :
    1 ≤ (iter_filter_order cfg_example [addrN, addrL]).1 ∧
    (iter_server_selection cfg_example [addrN, addrL] 0 true).dnssec_expected =
      (if (iter_filter_order cfg_example [addrN, addrL]).2.2 ≥
          cfg_example.USEFUL_SERVER_TOP_TIMEOUT then false else true) :=
  ⟨by decide, C3_dnssec_expected cfg_example [addrN, addrL] 0 true (by decide)⟩

/-! ## C4: the reordering pass -/

/-- C4 counterexample: three candidates, rtts 20/25/30, all inside the band
of 50.  The claim predicts the best-set candidates appear at the front in
their original relative order (tags 1,2,3); the code leaves tags 3,2,1,
because each swapped node is consed onto the current list head. -/
theorem C4_counterexample :
    ((iter_filter_order cfg_example [addrA, addrB, addrE]).2.1.take
        (iter_filter_order cfg_example [addrA, addrB, addrE]).1).map DelegptAddr.tag
      = [3, 2, 1] ∧
    (((iter_fill_rtt cfg_example [addrA, addrB, addrE]).1.filter
        (counted cfg_example
          (iter_filter_order cfg_example [addrA, addrB, addrE]).2.2)).map
        DelegptAddr.tag) = [1, 2, 3] ∧
    ¬ ((iter_filter_order cfg_example [addrA, addrB, addrE]).2.1.take
        (iter_filter_order cfg_example [addrA, addrB, addrE]).1).map DelegptAddr.tag
      = (((iter_fill_rtt cfg_example [addrA, addrB, addrE]).1.filter
        (counted cfg_example
          (iter_filter_order cfg_example [addrA, addrB, addrE]).2.2)).map
        DelegptAddr.tag) := by
  decide

/-- C4 (amended): the reordering pass moves exactly the best-set candidates
(in-band selection rtt) to the front, but they appear there in REVERSE of
their original relative order (the head of the list, when in the best set,
is never unlinked and ends up last of the front block); the remaining
candidates keep their original relative order after them. -/
theorem C4_reorder_front (cfg : IterCfg) (l : List DelegptAddr) (low : Int)
    (h : (iter_fill_rtt cfg l).2 = some low) :
    (iter_filter_order cfg l).2.1.take (iter_filter_order cfg l).1
        = ((iter_fill_rtt cfg l).1.filter (counted cfg low)).reverse ∧
      (iter_filter_order cfg l).2.1.drop (iter_filter_order cfg l).1
        = (iter_fill_rtt cfg l).1.filter (fun a => !(counted cfg low a)) :=
  ⟨ordered_take_num cfg l low h, ordered_drop_num cfg l low h⟩

/-- Witness for C4 (amended), evaluated on the three in-band candidates. -/
theorem C4_reorder_front_witness :
    (iter_fill_rtt cfg_example [addrA, addrB, addrE]).2 = some 20 ∧
    ((iter_filter_order cfg_example [addrA, addrB, addrE]).2.1.take
        (iter_filter_order cfg_example [addrA, addrB, addrE]).1
      = ((iter_fill_rtt cfg_example [addrA, addrB, addrE]).1.filter
          (counted cfg_example 20)).reverse ∧
     (iter_filter_order cfg_example [addrA, addrB, addrE]).2.1.drop
        (iter_filter_order cfg_example [addrA, addrB, addrE]).1
      = (iter_fill_rtt cfg_example [addrA, addrB, addrE]).1.filter
          (fun a => !(counted cfg_example 20 a))) :=
  ⟨by decide, C4_reorder_front cfg_example [addrA, addrB, addrE] 20 (by decide)⟩

/-! ## C9: reordering and removal are permutation-clean -/

/-- C9: the reordering pass leaves result_list a permutation of its input
(no candidate added, removed or duplicated); a selection whose returned
candidate stays below the retry limit removes nothing, and one that reaches
the limit removes exactly the returned candidate. -/
theorem C9_reorder_permutation (cfg : IterCfg) (l : List DelegptAddr)
    (r : Nat) (de : Bool) :
    ((iter_filter_order cfg l).2.1).Perm (iter_fill_rtt cfg l).1
    ∧ (((iter_filter_order cfg l).2.1.map DelegptAddr.tag).Perm
        (l.map DelegptAddr.tag))
    ∧ ((iter_server_selection cfg l r de).chosen = none →
        (iter_server_selection cfg l r de).result_list
          = (iter_filter_order cfg l).2.1)
    ∧ (∀ a, (iter_server_selection cfg l r de).chosen = some a →
        a.attempts < cfg.OUTBOUND_MSG_RETRY →
        ((iter_server_selection cfg l r de).result_list.map DelegptAddr.tag).Perm
          (l.map DelegptAddr.tag))
    ∧ (∀ a, (iter_server_selection cfg l r de).chosen = some a →
        cfg.OUTBOUND_MSG_RETRY ≤ a.attempts →
        (a.tag ::
          (iter_server_selection cfg l r de).result_list.map DelegptAddr.tag).Perm
          (l.map DelegptAddr.tag)) := by
  refine ⟨ordered_perm_filled cfg l, ordered_map_tag_perm cfg l, ?_, ?_, ?_⟩
  · intro hc
    by_cases h0 : (iter_filter_order cfg l).1 = 0
    · rw [sel_of_num_zero cfg l r de h0]
    · obtain ⟨a, _, hch, _, _⟩ := sel_chosen_eq cfg l r de (by omega)
      rw [hch] at hc
      cases hc
  · intro a hc hlt
    by_cases h0 : (iter_filter_order cfg l).1 = 0
    · rw [sel_of_num_zero cfg l r de h0] at hc
      cases hc
    · obtain ⟨a0, hget, hch, hres, _⟩ := sel_chosen_eq cfg l r de (by omega)
      rw [hch] at hc
      injection hc with hc
      subst hc
      have hlt' : a0.attempts + 1 < cfg.OUTBOUND_MSG_RETRY := hlt
      rw [if_pos hlt'] at hres
      rw [hres]
      have hmap : ((iter_filter_order cfg l).2.1.set
            (r % (iter_filter_order cfg l).1) (bump a0)).map DelegptAddr.tag
          = (iter_filter_order cfg l).2.1.map DelegptAddr.tag := by
        rw [List.map_set]
        apply set_get?_eq
        rw [List.get?_map, hget]
        rfl
      rw [hmap]
      exact ordered_map_tag_perm cfg l
  · intro a hc hge
    by_cases h0 : (iter_filter_order cfg l).1 = 0
    · rw [sel_of_num_zero cfg l r de h0] at hc
      cases hc
    · obtain ⟨a0, hget, hch, hres, _⟩ := sel_chosen_eq cfg l r de (by omega)
      rw [hch] at hc
      injection hc with hc
      subst hc
      have hge' : ¬ a0.attempts + 1 < cfg.OUTBOUND_MSG_RETRY := by
        have : cfg.OUTBOUND_MSG_RETRY ≤ a0.attempts + 1 := hge
        omega
      rw [if_neg hge'] at hres
      rw [hres]
      have hperm := (cons_eraseIdx_perm _ _ _ hget).map DelegptAddr.tag
      simp only [List.map_cons] at hperm
      exact hperm.trans (ordered_map_tag_perm cfg l)

/-- Witness for C9: selecting from the singleton delegation point keeps the
tag multiset of the result list intact. -/
theorem C9_reorder_permutation_witness :
    ((iter_server_selection cfg_example [addrA] 0 true).result_list.map
        DelegptAddr.tag).Perm ([addrA].map DelegptAddr.tag) :=
  (C9_reorder_permutation cfg_example [addrA] 0 true).2.2.2.1
    ⟨1, false, false, some ⟨false, false, 20⟩, 20, 1⟩ (by decide) (by decide)

/-! ## C5: attempt counting and retirement -/

theorem empty_selection (cfg : IterCfg) (r : Nat) (de : Bool) :
    iter_server_selection cfg [] r de = ⟨none, [], de⟩ := by
  have h : (iter_fill_rtt cfg []).2 = none := rfl
  have h0 : (iter_filter_order cfg []).1 = 0 := by
    rw [iter_filter_order_of_none cfg [] h]
  rw [sel_of_num_zero cfg [] r de h0, iter_filter_order_of_none cfg [] h]
  rfl

theorem singleton_selection (cfg : IterCfg) (r : Nat) (de : Bool)
    (b : DelegptAddr) (hB : 0 ≤ cfg.RTT_BAND)
    (hu : ¬ iter_filter_unsuitable cfg b = -1) :
    (iter_server_selection cfg [b] r de).chosen
        = some { b with sel_rtt := iter_filter_unsuitable cfg b,
                        attempts := b.attempts + 1 } ∧
    (iter_server_selection cfg [b] r de).result_list
        = (if b.attempts + 1 < cfg.OUTBOUND_MSG_RETRY
           then [{ b with sel_rtt := iter_filter_unsuitable cfg b,
                          attempts := b.attempts + 1 }]
           else []) := by
  have hsnd : (iter_fill_rtt cfg [b]).2 = some (iter_filter_unsuitable cfg b) := by
    show rtt_fold_step none { b with sel_rtt := iter_filter_unsuitable cfg b } = _
    unfold rtt_fold_step
    dsimp only
    rw [if_neg hu]
  have hcnt : counted cfg (iter_filter_unsuitable cfg b)
      { b with sel_rtt := iter_filter_unsuitable cfg b } = true := by
    simp only [counted, swap_to_front_test]
    simp [hu, hB]
  have hord := iter_filter_order_of_some cfg [b] (iter_filter_unsuitable cfg b) hsnd
  have hnum : (iter_filter_order cfg [b]).1 = 1 := by
    rw [hord]
    show List.countP _ [{ b with sel_rtt := iter_filter_unsuitable cfg b }] = 1
    simp [List.countP_cons, hcnt]
  have hlst : (iter_filter_order cfg [b]).2.1
      = [{ b with sel_rtt := iter_filter_unsuitable cfg b }] := by
    rw [hord]
    show (List.filter _ [_]).reverse ++ List.filter _ [_] = _
    simp [List.filter_cons, hcnt]
  obtain ⟨a, hget, hch, hres, _⟩ := sel_chosen_eq cfg [b] r de (by omega)
  rw [hnum, Nat.mod_one, hlst] at hget
  have ha : a = { b with sel_rtt := iter_filter_unsuitable cfg b } := by
    have := hget
    injection this with h2
    exact h2.symm
  subst ha
  rw [hnum, Nat.mod_one, hlst] at hres
  constructor
  · rw [hch]
    rfl
  · rw [hres]
    dsimp only [bump]
    by_cases hlt : b.attempts + 1 < cfg.OUTBOUND_MSG_RETRY
    · rw [if_pos hlt, if_pos hlt]
      rfl
    · rw [if_neg hlt, if_neg hlt]
      rfl

theorem sel_iterate_spec (cfg : IterCfg) (r : Nat) (de : Bool)
    (a0 : DelegptAddr) (hB : 0 ≤ cfg.RTT_BAND)
    (hu : ¬ iter_filter_unsuitable cfg a0 = -1)
    (ha : a0.attempts = 0) (hk1 : 1 ≤ cfg.OUTBOUND_MSG_RETRY) :
    ∀ k, (k < cfg.OUTBOUND_MSG_RETRY →
        ∃ s, sel_iterate cfg r de [a0] k = [{ a0 with sel_rtt := s, attempts := k }])
      ∧ (cfg.OUTBOUND_MSG_RETRY ≤ k → sel_iterate cfg r de [a0] k = []) := by
  intro k
  induction k with
  | zero =>
    constructor
    · intro _
      refine ⟨a0.sel_rtt, ?_⟩
      show [a0] = _
      cases a0
      simp only at ha
      simp [ha]
    · intro hk
      omega
  | succ k ih =>
    constructor
    · intro hklt
      obtain ⟨s, hs⟩ := ih.1 (by omega)
      refine ⟨iter_filter_unsuitable cfg a0, ?_⟩
      show (iter_server_selection cfg (sel_iterate cfg r de [a0] k) r de).result_list = _
      rw [hs]
      have hub : ¬ iter_filter_unsuitable cfg { a0 with sel_rtt := s, attempts := k }
          = -1 := hu
      have hsel := singleton_selection cfg r de _ hB hub
      rw [hsel.2]
      have hcond : ({ a0 with sel_rtt := s, attempts := k } : DelegptAddr).attempts + 1
          < cfg.OUTBOUND_MSG_RETRY := hklt
      rw [if_pos hcond]
      rfl
    · intro hkge
      by_cases hk : cfg.OUTBOUND_MSG_RETRY ≤ k
      · have hempty := ih.2 hk
        show (iter_server_selection cfg (sel_iterate cfg r de [a0] k) r de).result_list = _
        rw [hempty, empty_selection]
      · obtain ⟨s, hs⟩ := ih.1 (by omega)
        show (iter_server_selection cfg (sel_iterate cfg r de [a0] k) r de).result_list = _
        rw [hs]
        have hub : ¬ iter_filter_unsuitable cfg { a0 with sel_rtt := s, attempts := k }
            = -1 := hu
        have hsel := singleton_selection cfg r de _ hB hub
        rw [hsel.2]
        have hcond : ¬ (({ a0 with sel_rtt := s, attempts := k } : DelegptAddr).attempts + 1
            < cfg.OUTBOUND_MSG_RETRY) := by
          show ¬ (k + 1 < cfg.OUTBOUND_MSG_RETRY)
          omega
        rw [if_neg hcond]

/-- C5: every successful selection increments the returned candidate's
attempt counter by exactly one, and the candidate is unlinked from the
result list exactly when the incremented counter reaches
OUTBOUND_MSG_RETRY (with distinct candidates it can then never be returned
again); consequently a delegation point with a single suitable candidate
starting at zero attempts yields that candidate on every selection until
its attempts reach OUTBOUND_MSG_RETRY, and none afterwards. -/
theorem C5_attempts_and_retirement (cfg : IterCfg) (l : List DelegptAddr)
    (r : Nat) (de : Bool) (a0 : DelegptAddr)
    (hB : 0 ≤ cfg.RTT_BAND)
    (hu : ¬ iter_filter_unsuitable cfg a0 = -1)
    (ha : a0.attempts = 0) (hk1 : 1 ≤ cfg.OUTBOUND_MSG_RETRY) :
    (∀ a, (iter_server_selection cfg l r de).chosen = some a →
      ∃ i a1, (iter_filter_order cfg l).2.1.get? i = some a1 ∧
        a = bump a1 ∧ a.attempts = a1.attempts + 1 ∧
        (iter_server_selection cfg l r de).result_list =
          (if a.attempts < cfg.OUTBOUND_MSG_RETRY
           then (iter_filter_order cfg l).2.1.set i a
           else (iter_filter_order cfg l).2.1.eraseIdx i))
    ∧ (∀ a, (iter_server_selection cfg l r de).chosen = some a →
        cfg.OUTBOUND_MSG_RETRY ≤ a.attempts →
        (l.map DelegptAddr.tag).Nodup →
        ¬ a.tag ∈ (iter_server_selection cfg l r de).result_list.map DelegptAddr.tag)
    ∧ (∀ k, k < cfg.OUTBOUND_MSG_RETRY →
        ∃ c, (iter_server_selection cfg (sel_iterate cfg r de [a0] k) r de).chosen
            = some c ∧ c.tag = a0.tag ∧ c.attempts = k + 1)
    ∧ (∀ k, cfg.OUTBOUND_MSG_RETRY ≤ k →
        (iter_server_selection cfg (sel_iterate cfg r de [a0] k) r de).chosen
          = none) := by
  refine ⟨?_, ?_, ?_, ?_⟩
  · intro a hc
    by_cases h0 : (iter_filter_order cfg l).1 = 0
    · rw [sel_of_num_zero cfg l r de h0] at hc
      cases hc
    · obtain ⟨a1, hget, hch, hres, _⟩ := sel_chosen_eq cfg l r de (by omega)
      rw [hch] at hc
      injection hc with hc
      subst hc
      refine ⟨r % (iter_filter_order cfg l).1, a1, hget, rfl, rfl, ?_⟩
      dsimp only [bump]
      exact hres
  · intro a hc hge hnodup
    by_cases h0 : (iter_filter_order cfg l).1 = 0
    · rw [sel_of_num_zero cfg l r de h0] at hc
      cases hc
    · obtain ⟨a1, hget, hch, hres, _⟩ := sel_chosen_eq cfg l r de (by omega)
      rw [hch] at hc
      injection hc with hc
      subst hc
      have hge' : ¬ a1.attempts + 1 < cfg.OUTBOUND_MSG_RETRY := by
        have : cfg.OUTBOUND_MSG_RETRY ≤ a1.attempts + 1 := hge
        omega
      rw [if_neg hge'] at hres
      rw [hres]
      have hperm := (cons_eraseIdx_perm _ _ _ hget).map DelegptAddr.tag
      simp only [List.map_cons] at hperm
      have hnd : ((iter_filter_order cfg l).2.1.map DelegptAddr.tag).Nodup :=
        ((ordered_map_tag_perm cfg l).nodup_iff).mpr hnodup
      have hnd2 := (hperm.nodup_iff).mpr hnd
      exact (List.nodup_cons.mp hnd2).1
  · intro k hk
    obtain ⟨s, hs⟩ := (sel_iterate_spec cfg r de a0 hB hu ha hk1 k).1 hk
    rw [hs]
    have hub : ¬ iter_filter_unsuitable cfg { a0 with sel_rtt := s, attempts := k }
        = -1 := hu
    exact ⟨_, (singleton_selection cfg r de _ hB hub).1, rfl, rfl⟩
  · intro k hk
    rw [(sel_iterate_spec cfg r de a0 hB hu ha hk1 k).2 hk, empty_selection]

/-- Witness for C5: after the single candidate addrA has been selected
OUTBOUND_MSG_RETRY (= 5) times, selection returns none. -/
theorem C5_attempts_and_retirement_witness :
    (iter_server_selection cfg_example
        (sel_iterate cfg_example 0 true [addrA] 5) 0 true).chosen = none :=
  (C5_attempts_and_retirement cfg_example [addrA] 0 true addrA (by decide)
    (by decide) (by decide) (by decide)).2.2.2 5 (by decide)

/-! ## C1: best-set selection -/

theorem num_pos_snd_some (cfg : IterCfg) (l : List DelegptAddr)
    (h : 1 ≤ (iter_filter_order cfg l).1) :
    ∃ low, (iter_fill_rtt cfg l).2 = some low ∧
      (iter_filter_order cfg l).2.2 = low := by
  cases hsnd : (iter_fill_rtt cfg l).2 with
  | none =>
    rw [iter_filter_order_of_none cfg l hsnd] at h
    exact absurd h (by omega)
  | some low =>
    refine ⟨low, rfl, ?_⟩
    rw [iter_filter_order_of_some cfg l low hsnd]

/-- C1: when some candidate is suitable the best set is non-empty; with an
empty best set selection returns none; with a non-empty best set the
candidate at index r % num of the reordered front block is returned and is
a best-set member; with a singleton best set that unique candidate is
returned; with a best set of two or more distinct candidates every front
slot is a best-set member returned for exactly one residue class of the
random draw; and in the spec example {A:20, B:25, C:400} the out-of-band
candidate C (tag 3) is never returned. -/
theorem C1_best_set_selection (cfg : IterCfg) (l : List DelegptAddr) (r : Nat)
    (de : Bool) (hB : 0 ≤ cfg.RTT_BAND) :
    ((∃ a ∈ (iter_fill_rtt cfg l).1, ¬ a.sel_rtt = -1) →
        1 ≤ (iter_filter_order cfg l).1)
    ∧ ((iter_filter_order cfg l).1 = 0 →
        (iter_server_selection cfg l r de).chosen = none)
    ∧ (1 ≤ (iter_filter_order cfg l).1 →
        ∃ a, (iter_filter_order cfg l).2.1.get? (r % (iter_filter_order cfg l).1)
            = some a ∧
          counted cfg (iter_filter_order cfg l).2.2 a = true ∧
          (iter_server_selection cfg l r de).chosen = some (bump a))
    ∧ ((iter_filter_order cfg l).1 = 1 →
        ∃ a, a ∈ (iter_fill_rtt cfg l).1 ∧
          counted cfg (iter_filter_order cfg l).2.2 a = true ∧
          (iter_server_selection cfg l r de).chosen = some (bump a) ∧
          ∀ b ∈ (iter_fill_rtt cfg l).1,
            counted cfg (iter_filter_order cfg l).2.2 b = true → b = a)
    ∧ (2 ≤ (iter_filter_order cfg l).1 → (l.map DelegptAddr.tag).Nodup →
        ∀ i, i < (iter_filter_order cfg l).1 →
          ∃ a, (iter_filter_order cfg l).2.1.get? i = some a ∧
            counted cfg (iter_filter_order cfg l).2.2 a = true ∧
            ∃! j, j < (iter_filter_order cfg l).1 ∧
              ∀ r', r' % (iter_filter_order cfg l).1 = j →
                (iter_server_selection cfg l r' de).chosen = some (bump a))
    ∧ (∀ r' c,
        (iter_server_selection cfg_example [addrA, addrB, addrC] r' true).chosen
          = some c → ¬ c.tag = 3) := by
  refine ⟨?_, ?_, ?_, ?_, ?_, ?_⟩
  · rintro ⟨a, hmem, hsuit⟩
    cases hsnd : (iter_fill_rtt cfg l).2 with
    | none =>
      rw [iter_fill_rtt] at hsnd
      rw [rtt_fold_none] at hsnd
      exact absurd (hsnd.2 a hmem) hsuit
    | some low =>
      rw [iter_filter_order_of_some cfg l low hsnd]
      have hex : ∃ e ∈ (iter_fill_rtt cfg l).1, e.sel_rtt = low ∧ ¬ e.sel_rtt = -1 := by
        have hf := hsnd
        rw [iter_fill_rtt] at hf
        rcases rtt_fold_some_mem _ _ _ hf with h1 | h2
        · cases h1
        · exact h2
      obtain ⟨e, hemem, helow, hene⟩ := hex
      have hecnt : counted cfg low e = true := by
        rw [helow] at hene
        simp only [counted, swap_to_front_test, helow]
        simp [hene, hB]
      have : 0 < (iter_fill_rtt cfg l).1.countP (counted cfg low) :=
        List.countP_pos.mpr ⟨e, hemem, hecnt⟩
      omega
  · intro h0
    rw [sel_of_num_zero cfg l r de h0]
  · intro h
    obtain ⟨low, hlow, hlow2⟩ := num_pos_snd_some cfg l h
    obtain ⟨a, hget, hch, _, _⟩ := sel_chosen_eq cfg l r de h
    obtain ⟨a', hget', hcnt⟩ := front_mem_counted cfg l low hlow
      (r % (iter_filter_order cfg l).1) (Nat.mod_lt _ (by omega))
    rw [hget] at hget'
    injection hget' with he
    subst he
    rw [hlow2]
    exact ⟨a, hget, hcnt, hch⟩
  · intro h1
    obtain ⟨low, hlow, hlow2⟩ := num_pos_snd_some cfg l (by omega)
    have hcount : (iter_fill_rtt cfg l).1.countP (counted cfg low) = 1 := by
      have := iter_filter_order_of_some cfg l low hlow
      rw [this] at h1
      exact h1
    have hfl : ((iter_fill_rtt cfg l).1.filter (counted cfg low)).length = 1 := by
      rw [← List.countP_eq_length_filter]
      exact hcount
    obtain ⟨a, hfa⟩ := List.length_eq_one.mp hfl
    have hamem : a ∈ (iter_fill_rtt cfg l).1 ∧ counted cfg low a = true := by
      have : a ∈ (iter_fill_rtt cfg l).1.filter (counted cfg low) := by
        rw [hfa]
        exact List.mem_singleton_self a
      exact ⟨(List.mem_filter.mp this).1, (List.mem_filter.mp this).2⟩
    have htake := ordered_take_num cfg l low hlow
    rw [hfa] at htake
    obtain ⟨a'', hget, hch, _, _⟩ := sel_chosen_eq cfg l r de (by omega)
    have hget0 : (iter_filter_order cfg l).2.1.get? 0 = some a := by
      have h00 : ((iter_filter_order cfg l).2.1.take
          (iter_filter_order cfg l).1).get? 0 = some a := by
        rw [htake]
        rfl
      rw [List.get?_take (by omega)] at h00
      exact h00
    rw [h1, Nat.mod_one] at hget
    rw [hget0] at hget
    injection hget with he
    refine ⟨a, hamem.1, by rw [hlow2]; exact hamem.2, by rw [← he] at hch; exact hch, ?_⟩
    intro b hbmem hbcnt
    have : b ∈ (iter_fill_rtt cfg l).1.filter (counted cfg low) :=
      List.mem_filter.mpr ⟨hbmem, by rw [hlow2] at hbcnt; exact hbcnt⟩
    rw [hfa] at this
    exact List.mem_singleton.mp this
  · intro h2 hnodup i hi
    obtain ⟨low, hlow, hlow2⟩ := num_pos_snd_some cfg l (by omega)
    obtain ⟨a, hget, hcnt⟩ := front_mem_counted cfg l low hlow i hi
    have hordnd : (iter_filter_order cfg l).2.1.Nodup :=
      List.Nodup.of_map DelegptAddr.tag
        (((ordered_map_tag_perm cfg l).nodup_iff).mpr hnodup)
    refine ⟨a, hget, by rw [hlow2]; exact hcnt, ⟨i, ⟨hi, ?_⟩, ?_⟩⟩
    · intro r' hr'
      obtain ⟨a', hget', hch', _, _⟩ := sel_chosen_eq cfg l r' de (by omega)
      rw [hr'] at hget'
      rw [hget] at hget'
      injection hget' with he
      rw [he]
      exact hch'
    · rintro j ⟨hj, hjprop⟩
      have hjr := hjprop j (Nat.mod_eq_of_lt hj)
      obtain ⟨aj, hgetj, hchj, _, _⟩ := sel_chosen_eq cfg l j de (by omega)
      rw [Nat.mod_eq_of_lt hj] at hgetj
      rw [hchj] at hjr
      injection hjr with hjr
      have haj : aj = a := bump_inj hjr
      subst haj
      obtain ⟨hilen, hgi⟩ := List.get?_eq_some.mp hget
      obtain ⟨hjlen, hgj⟩ := List.get?_eq_some.mp hgetj
      have : (iter_filter_order cfg l).2.1.get ⟨j, hjlen⟩
          = (iter_filter_order cfg l).2.1.get ⟨i, hilen⟩ := by
        rw [hgi, hgj]
      have := (List.Nodup.get_inj_iff hordnd).mp this
      exact congrArg Fin.val this
  · intro r' c hc
    have h2 : (iter_filter_order cfg_example [addrA, addrB, addrC]).1 = 2 := by
      decide
    obtain ⟨a, hget, hch, _, _⟩ :=
      sel_chosen_eq cfg_example [addrA, addrB, addrC] r' true (by rw [h2]; omega)
    rw [hch] at hc
    injection hc with hc
    rw [h2] at hget
    rcases Nat.mod_two_eq_zero_or_one r' with hm | hm
    · rw [hm] at hget
      have hv : (iter_filter_order cfg_example [addrA, addrB, addrC]).2.1.get? 0
          = some ⟨2, false, false, some ⟨false, false, 25⟩, 25, 0⟩ := by decide
      rw [hv] at hget
      injection hget with he
      rw [← hc, ← he]
      decide
    · rw [hm] at hget
      have hv : (iter_filter_order cfg_example [addrA, addrB, addrC]).2.1.get? 1
          = some ⟨1, false, false, some ⟨false, false, 20⟩, 20, 0⟩ := by decide
      rw [hv] at hget
      injection hget with he
      rw [← hc, ← he]
      decide

/-- Witness for C1: the delegation point whose only candidate C is
unsuitable (rtt 400 at or above the top timeout) has an empty best set, and
selection returns none. -/
theorem C1_best_set_selection_witness :
    (iter_server_selection cfg_example [addrC] 0 true).chosen = none :=
  (C1_best_set_selection cfg_example [addrC] 0 true (by decide)).2.1 (by decide)

/-! ## C8: pkt_dname_len terminates and rejects malformed names -/

theorem pkt_dname_len_loop_isSome :
    ∀ (fuel : Nat) (pkt : LdnsBuffer) (len : Nat) (loop : List Nat)
      (endpos : Nat),
      ((Finset.range 16384).filter (fun p => p ∉ loop)).card * 258
          + (256 - len) < fuel →
      (pkt_dname_len_loop fuel pkt len loop endpos).isSome = true := by
  intro fuel
  induction fuel with
  | zero =>
    intro pkt len loop endpos h
    exact absurd h (by omega)
  | succ fuel ih =>
    intro pkt len loop endpos hM
    simp only [pkt_dname_len_loop]
    split
    · rfl
    next h1 =>
      split
      next h2 =>
        split
        · rfl
        next h3 =>
          split
          · rfl
          next h4 =>
            split
            · rfl
            next h5 =>
              apply ih
              have hptr : PTR_OFFSET (ldns_buffer_read_u8 pkt).1
                  (ldns_buffer_read_u8 (ldns_buffer_read_u8 pkt).2).1 < 16384 := by
                unfold PTR_OFFSET ldns_buffer_read_u8
                have hb : (ldns_buffer_read_u8 pkt).2.data.getD
                    (ldns_buffer_read_u8 pkt).2.position 0 % 256 < 256 :=
                  Nat.mod_lt _ (by omega)
                have hl : (ldns_buffer_read_u8 pkt).1 % 64 < 64 :=
                  Nat.mod_lt _ (by omega)
                dsimp only
                omega
              have hnotin : PTR_OFFSET (ldns_buffer_read_u8 pkt).1
                  (ldns_buffer_read_u8 (ldns_buffer_read_u8 pkt).2).1 ∉ loop := by
                simp only [loopcheck] at h4
                simpa using h4
              have hsub : (Finset.range 16384).filter
                    (fun p => p ∉ (loopcheck loop (PTR_OFFSET
                      (ldns_buffer_read_u8 pkt).1
                      (ldns_buffer_read_u8 (ldns_buffer_read_u8 pkt).2).1)).2)
                  ⊆ (Finset.range 16384).filter (fun p => p ∉ loop) := by
                intro p hp
                simp only [loopcheck, Finset.mem_filter, List.mem_cons] at hp ⊢
                exact ⟨hp.1, fun hm => hp.2 (Or.inr hm)⟩
              have hmem : PTR_OFFSET (ldns_buffer_read_u8 pkt).1
                  (ldns_buffer_read_u8 (ldns_buffer_read_u8 pkt).2).1
                  ∈ (Finset.range 16384).filter (fun p => p ∉ loop) := by
                simp only [Finset.mem_filter, Finset.mem_range]
                exact ⟨hptr, hnotin⟩
              have hnot : PTR_OFFSET (ldns_buffer_read_u8 pkt).1
                  (ldns_buffer_read_u8 (ldns_buffer_read_u8 pkt).2).1
                  ∉ (Finset.range 16384).filter
                    (fun p => p ∉ (loopcheck loop (PTR_OFFSET
                      (ldns_buffer_read_u8 pkt).1
                      (ldns_buffer_read_u8 (ldns_buffer_read_u8 pkt).2).1)).2) := by
                simp [loopcheck]
              have hcard := Finset.card_lt_card
                ((Finset.ssubset_iff_of_subset hsub).mpr
                  ⟨_, hmem, hnot⟩)
              omega
      next h2 =>
        split
        · rfl
        next h6 =>
          split
          · rfl
          next h7 =>
            split
            · rfl
            next h8 =>
              split
              · rfl
              next h9 =>
                apply ih
                unfold LDNS_MAX_DOMAINLEN at h7
                omega

theorem pkt_dname_len_loop_mono :
    ∀ (f1 f2 : Nat) (pkt : LdnsBuffer) (len : Nat) (loop : List Nat)
      (endpos : Nat), f1 ≤ f2 →
      (pkt_dname_len_loop f1 pkt len loop endpos).isSome = true →
      pkt_dname_len_loop f2 pkt len loop endpos
        = pkt_dname_len_loop f1 pkt len loop endpos := by
  intro f1
  induction f1 with
  | zero =>
    intro f2 pkt len loop endpos _ h
    simp [pkt_dname_len_loop] at h
  | succ f1 ih =>
    intro f2 pkt len loop endpos hle h
    obtain ⟨f2', rfl⟩ : ∃ f2', f2 = f2' + 1 := ⟨f2 - 1, by omega⟩
    simp only [pkt_dname_len_loop] at h ⊢
    by_cases h1 : ldns_buffer_remaining pkt < 1
    · simp only [if_pos h1]
    · simp only [if_neg h1] at h ⊢
      by_cases h2 : LABEL_IS_PTR (ldns_buffer_read_u8 pkt).1 = true
      · simp only [if_pos h2] at h ⊢
        by_cases h3 : ldns_buffer_remaining (ldns_buffer_read_u8 pkt).2 < 1
        · simp only [if_pos h3]
        · simp only [if_neg h3] at h ⊢
          by_cases h4 : (loopcheck loop (PTR_OFFSET (ldns_buffer_read_u8 pkt).1
              (ldns_buffer_read_u8 (ldns_buffer_read_u8 pkt).2).1)).1 = true
          · simp only [if_pos h4]
          · simp only [if_neg h4] at h ⊢
            by_cases h5 : ldns_buffer_limit
                (ldns_buffer_read_u8 (ldns_buffer_read_u8 pkt).2).2
                ≤ PTR_OFFSET (ldns_buffer_read_u8 pkt).1
                  (ldns_buffer_read_u8 (ldns_buffer_read_u8 pkt).2).1
            · simp only [if_pos h5]
            · simp only [if_neg h5] at h ⊢
              exact ih _ _ _ _ _ (by omega) h
      · simp only [if_neg h2] at h ⊢
        by_cases h6 : (ldns_buffer_read_u8 pkt).1 > 0x3f
        · simp only [if_pos h6]
        · simp only [if_neg h6] at h ⊢
          by_cases h7 : len + 1 + (ldns_buffer_read_u8 pkt).1 > LDNS_MAX_DOMAINLEN
          · simp only [if_pos h7]
          · simp only [if_neg h7] at h ⊢
            by_cases h8 : (ldns_buffer_read_u8 pkt).1 = 0
            · simp only [if_pos h8]
            · simp only [if_neg h8] at h ⊢
              by_cases h9 : ldns_buffer_remaining (ldns_buffer_read_u8 pkt).2
                  < (ldns_buffer_read_u8 pkt).1
              · simp only [if_pos h9]
              · simp only [if_neg h9] at h ⊢
                exact ih _ _ _ _ _ (by omega) h

theorem pkt_dname_len_eval (pkt : LdnsBuffer) (f : Nat)
    (hf : f ≤ pkt_dname_len_fuel)
    (h : (pkt_dname_len_loop f pkt 0 [] 0).isSome = true) :
    pkt_dname_len pkt = (match pkt_dname_len_loop f pkt 0 [] 0 with
      | some r => r
      | none => (0, pkt)) := by
  unfold pkt_dname_len
  rw [pkt_dname_len_loop_mono f pkt_dname_len_fuel pkt 0 [] 0 hf h]

set_option maxRecDepth 4000 in
/-- C8: the dname-length parser terminates on every input buffer (the loop
bitmap bounds the pointer jumps, the maximum name length bounds the label
steps, so the fixed fuel is never exhausted), and it returns 0 on a
compression-pointer loop, an out-of-bounds pointer, a label longer than
0x3f, and a name exceeding the maximum domain length. -/
theorem C8_pkt_dname_len :
    (∀ pkt : LdnsBuffer,
      (pkt_dname_len_loop pkt_dname_len_fuel pkt 0 [] 0).isSome = true)
    ∧ (pkt_dname_len ⟨[0xc0, 0x00], 0⟩).1 = 0
    ∧ (pkt_dname_len ⟨[0xc0, 0x10], 0⟩).1 = 0
    ∧ (pkt_dname_len ⟨[0x40, 0, 0], 0⟩).1 = 0
    ∧ (pkt_dname_len
        ⟨(List.replicate 3 ((63 : Nat) :: List.replicate 63 1)).join ++ [63],
          0⟩).1 = 0 := by
  refine ⟨?_, ?_, ?_, ?_, ?_⟩
  · intro pkt
    apply pkt_dname_len_loop_isSome
    have hfilter : ((Finset.range 16384).filter
        (fun p => p ∉ ([] : List Nat))).card = 16384 := by
      rw [Finset.filter_true_of_mem (by intro x _; simp)]
      exact Finset.card_range _
    rw [hfilter]
    unfold pkt_dname_len_fuel MAX_COMPRESS_POS
    omega
  · rw [pkt_dname_len_eval _ 10 (by decide) (by decide)]
    decide
  · rw [pkt_dname_len_eval _ 10 (by decide) (by decide)]
    decide
  · rw [pkt_dname_len_eval _ 10 (by decide) (by decide)]
    decide
  · rw [pkt_dname_len_eval _ 10 (by decide) (by decide)]
    decide

/-! ## C10: query_dname_compare -/

theorem tolowerB_small {n : Nat} (h : n < 65) : tolowerB n = n := by
  unfold tolowerB
  rw [if_neg]
  rintro ⟨h1, _⟩
  omega

theorem cmp_label_bytes_map_neg :
    ∀ (n : Nat) (r1 r2 : List Nat),
      cmp_label_bytes n r2 r1 = (cmp_label_bytes n r1 r2).map (fun v => -v) := by
  intro n
  induction n with
  | zero => intro r1 r2; rfl
  | succ n ih =>
    intro r1 r2
    simp only [cmp_label_bytes]
    by_cases h : tolowerB (r1.headD 0 % 256) = tolowerB (r2.headD 0 % 256)
    · rw [if_neg (show ¬(tolowerB (r2.headD 0 % 256) ≠ tolowerB (r1.headD 0 % 256))
          from fun hne => hne h.symm),
        if_neg (show ¬(tolowerB (r1.headD 0 % 256) ≠ tolowerB (r2.headD 0 % 256))
          from fun hne => hne h)]
      exact ih r1.tail r2.tail
    · rw [if_pos (show tolowerB (r2.headD 0 % 256) ≠ tolowerB (r1.headD 0 % 256)
          from fun he => h he.symm),
        if_pos (show tolowerB (r1.headD 0 % 256) ≠ tolowerB (r2.headD 0 % 256)
          from h)]
      rcases Nat.lt_trichotomy (tolowerB (r1.headD 0 % 256))
          (tolowerB (r2.headD 0 % 256)) with h3 | h3 | h3
      · rw [if_neg (show ¬ tolowerB (r2.headD 0 % 256) < tolowerB (r1.headD 0 % 256)
            by omega),
          if_pos h3]
        rfl
      · exact absurd h3 h
      · rw [if_pos h3,
          if_neg (show ¬ tolowerB (r1.headD 0 % 256) < tolowerB (r2.headD 0 % 256)
            by omega)]
        rfl

theorem cmp_label_bytes_ne_zero :
    ∀ (n : Nat) (r1 r2 : List Nat) (v : Int),
      cmp_label_bytes n r1 r2 = some v → v = -1 ∨ v = 1 := by
  intro n
  induction n with
  | zero => intro r1 r2 v h; cases h
  | succ n ih =>
    intro r1 r2 v h
    simp only [cmp_label_bytes] at h
    by_cases hc : tolowerB (r1.headD 0 % 256) ≠ tolowerB (r2.headD 0 % 256)
    · rw [if_pos hc] at h
      by_cases hlt : tolowerB (r1.headD 0 % 256) < tolowerB (r2.headD 0 % 256)
      · rw [if_pos hlt] at h
        injection h with h
        exact .inl h.symm
      · rw [if_neg hlt] at h
        injection h with h
        exact .inr h.symm
    · rw [if_neg hc] at h
      exact ih r1.tail r2.tail v h

theorem qdc_antisym_aux (n : Nat) :
    ∀ (d1 d2 : List Nat), d1.length < n →
      query_dname_compare d2 d1 = - query_dname_compare d1 d2 := by
  induction n with
  | zero =>
    intro d1 d2 h
    exact absurd h (by omega)
  | succ n ih =>
    intro d1 d2 hlen
    conv_lhs => rw [query_dname_compare.eq_def]
    conv_rhs => rw [query_dname_compare.eq_def]
    by_cases ha1 : d1.headD 0 % 256 = 0 <;> by_cases ha2 : d2.headD 0 % 256 = 0
    · rw [dif_pos ⟨ha2, ha1⟩, dif_pos ⟨ha1, ha2⟩]
      norm_num
    · rw [dif_neg (show ¬(d2.headD 0 % 256 = 0 ∧ d1.headD 0 % 256 = 0)
          from fun hh => ha2 hh.1),
        dif_neg (show ¬(d1.headD 0 % 256 = 0 ∧ d2.headD 0 % 256 = 0)
          from fun hh => ha2 hh.2),
        dif_pos (show d2.headD 0 % 256 ≠ d1.headD 0 % 256
          from fun he => ha2 (he.trans ha1)),
        dif_pos (show d1.headD 0 % 256 ≠ d2.headD 0 % 256
          from fun he => ha2 (he ▸ ha1))]
      rw [if_neg (show ¬ d2.headD 0 % 256 < d1.headD 0 % 256 by omega),
        if_pos (show d1.headD 0 % 256 < d2.headD 0 % 256 by omega)]
      norm_num
    · rw [dif_neg (show ¬(d2.headD 0 % 256 = 0 ∧ d1.headD 0 % 256 = 0)
          from fun hh => ha1 hh.2),
        dif_neg (show ¬(d1.headD 0 % 256 = 0 ∧ d2.headD 0 % 256 = 0)
          from fun hh => ha1 hh.1),
        dif_pos (show d2.headD 0 % 256 ≠ d1.headD 0 % 256
          from fun he => ha1 (he ▸ ha2)),
        dif_pos (show d1.headD 0 % 256 ≠ d2.headD 0 % 256
          from fun he => ha1 (he.trans ha2))]
      rw [if_pos (show d2.headD 0 % 256 < d1.headD 0 % 256 by omega),
        if_neg (show ¬ d1.headD 0 % 256 < d2.headD 0 % 256 by omega)]
    · by_cases heq : d1.headD 0 % 256 = d2.headD 0 % 256
      · rw [dif_neg (show ¬(d2.headD 0 % 256 = 0 ∧ d1.headD 0 % 256 = 0)
            from fun hh => ha2 hh.1),
          dif_neg (show ¬(d1.headD 0 % 256 = 0 ∧ d2.headD 0 % 256 = 0)
            from fun hh => ha1 hh.1),
          dif_neg (show ¬(d2.headD 0 % 256 ≠ d1.headD 0 % 256)
            from fun hne => hne heq.symm),
          dif_neg (show ¬(d1.headD 0 % 256 ≠ d2.headD 0 % 256)
            from fun hne => hne heq)]
        rw [cmp_label_bytes_map_neg (d2.headD 0 % 256) d1.tail d2.tail, ← heq]
        cases hc : cmp_label_bytes (d1.headD 0 % 256) d1.tail d2.tail with
        | none =>
          have hne : d1 ≠ [] := by
            intro h
            subst h
            simp at ha1
          have hlen2 : (d1.tail.drop (d1.headD 0 % 256)).length < n := by
            have h1 : 1 ≤ d1.length := List.length_pos.mpr hne
            simp only [List.length_drop, List.length_tail]
            omega
          exact ih _ _ hlen2
        | some v =>
          rfl
      · rw [dif_neg (show ¬(d2.headD 0 % 256 = 0 ∧ d1.headD 0 % 256 = 0)
            from fun hh => ha2 hh.1),
          dif_neg (show ¬(d1.headD 0 % 256 = 0 ∧ d2.headD 0 % 256 = 0)
            from fun hh => ha1 hh.1),
          dif_pos (show d2.headD 0 % 256 ≠ d1.headD 0 % 256
            from fun he => heq he.symm),
          dif_pos heq]
        rcases Nat.lt_trichotomy (d1.headD 0 % 256) (d2.headD 0 % 256)
          with h3 | h3 | h3
        · rw [if_neg (show ¬ d2.headD 0 % 256 < d1.headD 0 % 256 by omega),
            if_pos h3]
          norm_num
        · exact absurd h3 heq
        · rw [if_pos h3,
            if_neg (show ¬ d1.headD 0 % 256 < d2.headD 0 % 256 by omega)]

theorem isWireName_cases (d : List Nat) (h : isWireName d = true) :
    d = [0] ∨ ∃ n body rest, d = n :: (body ++ rest) ∧ 1 ≤ n ∧ n ≤ 63 ∧
      body.length = n ∧ (∀ x ∈ body, x < 256) ∧ isWireName rest = true := by
  cases d with
  | nil => simp [isWireName] at h
  | cons l rest =>
    simp only [isWireName] at h
    by_cases hl : l = 0
    · subst hl
      rw [if_pos rfl] at h
      left
      rw [List.isEmpty_iff] at h
      rw [h]
    · rw [if_neg hl] at h
      simp only [Bool.and_eq_true, decide_eq_true_eq, List.all_eq_true] at h
      obtain ⟨⟨h1, h2⟩, h3, h4, h5⟩ := h
      right
      refine ⟨l, rest.take l, rest.drop l, ?_, h1, h2, ?_, ?_, h5⟩
      · rw [List.take_append_drop]
      · rw [List.length_take]
        omega
      · intro x hx
        simpa using h4 x hx

theorem cmp_label_bytes_none_iff :
    ∀ (n : Nat) (b1 r1 b2 r2 : List Nat), b1.length = n → b2.length = n →
      (∀ x ∈ b1, x < 256) → (∀ x ∈ b2, x < 256) →
      (cmp_label_bytes n (b1 ++ r1) (b2 ++ r2) = none
        ↔ b1.map tolowerB = b2.map tolowerB) := by
  intro n
  induction n with
  | zero =>
    intro b1 r1 b2 r2 h1 h2 _ _
    rw [List.length_eq_zero.mp h1, List.length_eq_zero.mp h2]
    simp [cmp_label_bytes]
  | succ n ih =>
    intro b1 r1 b2 r2 h1 h2 hlt1 hlt2
    obtain ⟨x, b1', rfl⟩ : ∃ x b1', b1 = x :: b1' := by
      cases b1 with
      | nil => simp at h1
      | cons x b1' => exact ⟨x, b1', rfl⟩
    obtain ⟨y, b2', rfl⟩ : ∃ y b2', b2 = y :: b2' := by
      cases b2 with
      | nil => simp at h2
      | cons y b2' => exact ⟨y, b2', rfl⟩
    have hx : x < 256 := hlt1 x (List.mem_cons_self x b1')
    have hy : y < 256 := hlt2 y (List.mem_cons_self y b2')
    simp only [cmp_label_bytes, List.cons_append, List.headD_cons,
      List.tail_cons, Nat.mod_eq_of_lt hx, Nat.mod_eq_of_lt hy]
    by_cases hxy : tolowerB x = tolowerB y
    · rw [if_neg (show ¬ tolowerB x ≠ tolowerB y from fun hne => hne hxy)]
      rw [ih b1' r1 b2' r2 (by simpa using h1) (by simpa using h2)
        (fun a ha => hlt1 a (List.mem_cons_of_mem x ha))
        (fun a ha => hlt2 a (List.mem_cons_of_mem y ha))]
      simp [hxy]
    · rw [if_pos hxy]
      constructor
      · intro hh
        by_cases hc : tolowerB x < tolowerB y
        · rw [if_pos hc] at hh
          cases hh
        · rw [if_neg hc] at hh
          cases hh
      · intro hm
        exfalso
        simp only [List.map_cons, List.cons.injEq] at hm
        exact hxy hm.1

theorem qdc_eq_zero_iff (N : Nat) :
    ∀ (d1 d2 : List Nat), d1.length < N → isWireName d1 = true →
      isWireName d2 = true →
      (query_dname_compare d1 d2 = 0 ↔ d1.map tolowerB = d2.map tolowerB) := by
  induction N with
  | zero =>
    intro d1 d2 h _ _
    exact absurd h (by omega)
  | succ N ih =>
    intro d1 d2 hlen h1 h2
    rcases isWireName_cases d1 h1 with rfl |
      ⟨n1, b1, r1, rfl, hn1a, hn1b, hb1len, hb1lt, hr1⟩
    · rcases isWireName_cases d2 h2 with rfl |
        ⟨n2, b2, r2, rfl, hn2a, hn2b, hb2len, hb2lt, hr2⟩
      · rw [query_dname_compare.eq_def]
        simp only [List.headD_cons]
        rw [dif_pos ⟨trivial, trivial⟩]
        simp
      · have hm2 : n2 % 256 = n2 := Nat.mod_eq_of_lt (by omega)
        rw [query_dname_compare.eq_def]
        simp only [List.headD_cons, hm2]
        rw [dif_neg (show ¬(True ∧ n2 = 0) from fun hh => absurd hh.2 (by omega))]
        rw [dif_pos (show (0 : Nat) % 256 ≠ n2 from by omega)]
        rw [if_pos (show (0 : Nat) % 256 < n2 from by omega)]
        constructor
        · intro h0
          exact absurd h0 (by norm_num)
        · intro hm
          exfalso
          have hL := congrArg List.length hm
          rw [List.length_map, List.length_map] at hL
          simp only [List.length_cons, List.length_append, List.length_nil,
            List.length_singleton] at hL
          omega
    · rcases isWireName_cases d2 h2 with rfl |
        ⟨n2, b2, r2, rfl, hn2a, hn2b, hb2len, hb2lt, hr2⟩
      · have hm1 : n1 % 256 = n1 := Nat.mod_eq_of_lt (by omega)
        rw [query_dname_compare.eq_def]
        simp only [List.headD_cons, hm1]
        rw [dif_neg (show ¬(n1 = 0 ∧ True) from fun hh => absurd hh.1 (by omega))]
        rw [dif_pos (show n1 ≠ (0 : Nat) % 256 from by omega)]
        rw [if_neg (show ¬ n1 < (0 : Nat) % 256 from by omega)]
        constructor
        · intro h0
          exact absurd h0 (by norm_num)
        · intro hm
          exfalso
          have hL := congrArg List.length hm
          rw [List.length_map, List.length_map] at hL
          simp only [List.length_cons, List.length_append, List.length_nil,
            List.length_singleton] at hL
          omega
      · have hm1 : n1 % 256 = n1 := Nat.mod_eq_of_lt (by omega)
        have hm2 : n2 % 256 = n2 := Nat.mod_eq_of_lt (by omega)
        rw [query_dname_compare.eq_def]
        simp only [List.headD_cons, hm1, hm2, List.tail_cons]
        rw [dif_neg (show ¬(n1 = 0 ∧ n2 = 0) from fun hh => by omega)]
        by_cases hne : n1 = n2
        · subst hne
          rw [dif_neg (show ¬(n1 ≠ n1) from fun hx => hx rfl)]
          have hiff := cmp_label_bytes_none_iff n1 b1 r1 b2 r2 hb1len hb2len
            hb1lt hb2lt
          cases hc : cmp_label_bytes n1 (b1 ++ r1) (b2 ++ r2) with
          | some v =>
            have hv := cmp_label_bytes_ne_zero n1 _ _ v hc
            have hbodydiff : ¬ (b1.map tolowerB = b2.map tolowerB) := by
              intro he
              rw [← hiff] at he
              rw [hc] at he
              cases he
            dsimp only
            constructor
            · intro h0
              rcases hv with hv | hv <;> rw [hv] at h0 <;>
                exact absurd h0 (by norm_num)
            · intro hm
              exfalso
              apply hbodydiff
              simp only [List.map_cons, List.map_append, List.cons.injEq] at hm
              exact (List.append_inj hm.2 (by simp [hb1len, hb2len])).1
          | none =>
            dsimp only
            have hd1 : (b1 ++ r1).drop n1 = r1 := by
              rw [← hb1len]
              exact List.drop_left _ _
            have hd2 : (b2 ++ r2).drop n1 = r2 := by
              rw [← hb2len]
              exact List.drop_left _ _
            rw [hd1, hd2]
            have hbody : b1.map tolowerB = b2.map tolowerB := hiff.mp hc
            have hrec := ih r1 r2 (by simp at hlen ⊢; omega) hr1 hr2
            rw [hrec]
            simp only [List.map_cons, List.map_append, List.cons.injEq]
            constructor
            · intro hr
              rw [hbody, hr]
              simp
            · intro hm
              exact (List.append_inj hm.2 (by simp [hb1len, hb2len])).2
        · rw [dif_pos (show n1 ≠ n2 from hne)]
          constructor
          · intro h0
            by_cases hlt : n1 < n2
            · rw [if_pos hlt] at h0
              exact absurd h0 (by norm_num)
            · rw [if_neg hlt] at h0
              exact absurd h0 (by norm_num)
          · intro hm
            exfalso
            simp only [List.map_cons, List.cons.injEq] at hm
            have := hm.1
            rw [tolowerB_small (by omega), tolowerB_small (by omega)] at this
            exact hne this

/-- C10: for uncompressed wire-format domain names, query_dname_compare
returns 0 exactly when the two names agree after ASCII-lowercasing every
octet (label length octets, being at most 63, are unaffected), and its sign
is antisymmetric: comparing in the other order negates the result. -/
theorem C10_query_dname_compare (d1 d2 : List Nat)
    (h1 : isWireName d1 = true) (h2 : isWireName d2 = true) :
    (query_dname_compare d1 d2 = 0 ↔ d1.map tolowerB = d2.map tolowerB)
    ∧ query_dname_compare d1 d2 = - query_dname_compare d2 d1 :=
  ⟨qdc_eq_zero_iff (d1.length + 1) d1 d2 (by omega) h1 h2,
   qdc_antisym_aux (d2.length + 1) d2 d1 (by omega)⟩

/-- Witness for C10: the names "A." and "a." (wire form) compare equal and
antisymmetrically. -/
theorem C10_query_dname_compare_witness :
    isWireName [1, 65, 0] = true ∧
    ((query_dname_compare [1, 65, 0] [1, 97, 0] = 0 ↔
        List.map tolowerB [1, 65, 0] = List.map tolowerB [1, 97, 0])
      ∧ query_dname_compare [1, 65, 0] [1, 97, 0]
          = - query_dname_compare [1, 97, 0] [1, 65, 0]) :=
  ⟨by simp [isWireName],
   C10_query_dname_compare [1, 65, 0] [1, 97, 0]
     (by simp [isWireName]) (by simp [isWireName])⟩

/-! ## C6: TCP wait-queue timers -/

theorem mem_remove_waiting (r : Nat) :
    ∀ (l : List TcpRequest) (q : TcpRequest), q ∈ remove_waiting r l → q ∈ l
  | [], q, h => by cases h
  | x :: t, q, h => by
    unfold remove_waiting at h
    by_cases hx : x.rid = r
    · rw [if_pos hx] at h
      exact List.mem_cons_of_mem x h
    · rw [if_neg hx] at h
      rcases List.mem_cons.mp h with rfl | h2
      · exact List.mem_cons_self _ _
      · exact List.mem_cons_of_mem x (mem_remove_waiting r t q h2)

theorem tcp_has_rid_false_iff (p : TcpPool) (rid : Nat) :
    tcp_has_rid p rid = false ↔
      (∀ q ∈ p.waitQueue, ¬ q.rid = rid) ∧ (∀ sq ∈ p.inFlight, ¬ sq.2.rid = rid) := by
  simp [tcp_has_rid]

theorem tcp_dispatch_not_has (p : TcpPool) (rid : Nat)
    (h : tcp_has_rid p rid = false) :
    tcp_has_rid (tcp_dispatch p) rid = false := by
  rw [tcp_has_rid_false_iff] at h ⊢
  unfold tcp_dispatch
  cases hf : p.freeSlots with
  | nil => exact h
  | cons s fs =>
    cases hw : p.waitQueue with
    | nil => exact h
    | cons q qs =>
      constructor
      · intro x hx
        exact h.1 x (by rw [hw]; exact List.mem_cons_of_mem q hx)
      · intro sq hsq
        rcases List.mem_cons.mp hsq with rfl | h2
        · exact h.1 q (by rw [hw]; exact List.mem_cons_self q qs)
        · exact h.2 sq h2

theorem tcp_step_not_has (now : Nat) (p : TcpPool) (e : TcpEvent) (rid : Nat)
    (h : tcp_has_rid p rid = false) (he : is_submit_of rid e = false) :
    tcp_has_rid (tcp_step now p e).1 rid = false ∧
      ∀ o ∈ (tcp_step now p e).2, out_for_rid rid o = false := by
  cases e with
  | submit r pkt timeout =>
    have hr : ¬ r = rid := by
      simpa [is_submit_of] using he
    rw [tcp_has_rid_false_iff] at h
    cases hf : p.freeSlots with
    | cons s fs =>
      simp only [tcp_step, hf]
      constructor
      · rw [tcp_has_rid_false_iff]
        refine ⟨h.1, ?_⟩
        intro sq hsq
        rcases List.mem_cons.mp hsq with rfl | h2
        · exact hr
        · exact h.2 sq h2
      · intro o ho
        cases ho
    | nil =>
      simp only [tcp_step, hf]
      constructor
      · rw [tcp_has_rid_false_iff]
        refine ⟨?_, h.2⟩
        intro q hq
        rcases List.mem_append.mp hq with h2 | h2
        · exact h.1 q h2
        · rw [List.mem_singleton.mp h2]
          exact hr
      · intro o ho
        cases ho
  | timerFire r =>
    have hwq : ∀ q ∈ p.waitQueue, ¬ q.rid = rid :=
      ((tcp_has_rid_false_iff p rid).mp h).1
    have hif : ∀ sq ∈ p.inFlight, ¬ sq.2.rid = rid :=
      ((tcp_has_rid_false_iff p rid).mp h).2
    have hr : ¬ r = rid ∨ r = rid := (em _).symm
    simp only [tcp_step]
    by_cases hany : p.waitQueue.any (fun q => q.rid = r) = true
    · rw [if_pos hany]
      have hrrid : ¬ r = rid := by
        intro hrr
        subst hrr
        rcases List.any_eq_true.mp hany with ⟨q, hq, hq2⟩
        exact hwq q hq (by simpa using hq2)
      constructor
      · rw [tcp_has_rid_false_iff]
        exact ⟨fun q hq => hwq q (mem_remove_waiting r _ q hq), hif⟩
      · intro o ho
        rw [List.mem_singleton.mp ho]
        simpa [out_for_rid] using hrrid
    · rw [if_neg hany]
      cases hfind : p.inFlight.find? (fun sq => sq.2.rid = r) with
      | none =>
        exact ⟨h, fun o ho => by cases ho⟩
      | some sq =>
        have hmem := List.mem_of_find?_eq_some hfind
        have hpred := List.find?_some hfind
        have hsq : sq.2.rid = r := by simpa using hpred
        have hrrid : ¬ r = rid := by
          intro hrr
          exact hif sq hmem (by rw [hsq, hrr])
        obtain ⟨s, q⟩ := sq
        constructor
        · apply tcp_dispatch_not_has
          rw [tcp_has_rid_false_iff]
          refine ⟨hwq, ?_⟩
          intro x hx
          exact hif x (List.mem_of_mem_filter hx)
        · intro o ho
          rw [List.mem_singleton.mp ho]
          simpa [out_for_rid] using hrrid
  | slotReply s =>
    have hif : ∀ sq ∈ p.inFlight, ¬ sq.2.rid = rid :=
      ((tcp_has_rid_false_iff p rid).mp h).2
    have hwq : ∀ q ∈ p.waitQueue, ¬ q.rid = rid :=
      ((tcp_has_rid_false_iff p rid).mp h).1
    simp only [tcp_step]
    cases hfind : p.inFlight.find? (fun sq => sq.1 = s) with
    | none =>
      exact ⟨h, fun o ho => by cases ho⟩
    | some sq =>
      have hmem := List.mem_of_find?_eq_some hfind
      obtain ⟨s0, q⟩ := sq
      constructor
      · apply tcp_dispatch_not_has
        rw [tcp_has_rid_false_iff]
        refine ⟨hwq, ?_⟩
        intro x hx
        exact hif x (List.mem_of_mem_filter hx)
      · intro o ho
        rw [List.mem_singleton.mp ho]
        simpa [out_for_rid] using hif ⟨s0, q⟩ hmem

theorem tcp_run_not_has (rid : Nat) :
    ∀ (evs : List (Nat × TcpEvent)) (p0 : TcpPool),
      tcp_has_rid p0 rid = false →
      (∀ e ∈ evs, is_submit_of rid e.2 = false) →
      tcp_has_rid (tcp_run evs p0).1 rid = false ∧
        ∀ o ∈ (tcp_run evs p0).2, out_for_rid rid o = false
  | [], p0, h, _ => ⟨h, fun o ho => by cases ho⟩
  | (now, e) :: evs, p0, h, hsub => by
    have hstep := tcp_step_not_has now p0 e rid h
      (hsub (now, e) (List.mem_cons_self _ _))
    have hrest := tcp_run_not_has rid evs (tcp_step now p0 e).1 hstep.1
      (fun x hx => hsub x (List.mem_cons_of_mem _ hx))
    simp only [tcp_run]
    refine ⟨hrest.1, ?_⟩
    intro o ho
    rcases List.mem_append.mp ho with h2 | h2
    · exact hstep.2 o h2
    · exact hrest.2 o h2

/-- C6: a TCP request's timeout timer is armed at submission time (whether
it is dispatched to a slot or queued, its deadline is now + timeout, and a
dispatched queue head keeps its deadline); a queued request whose timer
fires before dispatch delivers exactly one Timeout callback, is unlinked,
and leaves the free/in-flight slot partition unchanged; and a request that
is gone from the pool and never resubmitted never occupies a slot nor
receives any further callback. -/
theorem C6_tcp_wait_timeout (now : Nat) (p : TcpPool) (rid : Nat)
    (pkt : List Nat) (timeout : Nat) :
    (p.freeSlots = [] →
      tcp_step now p (.submit rid pkt timeout)
        = (⟨p.freeSlots, p.inFlight, p.waitQueue ++ [⟨rid, pkt, now + timeout⟩]⟩,
            []))
    ∧ (∀ s fs, p.freeSlots = s :: fs →
      tcp_step now p (.submit rid pkt timeout)
        = (⟨fs, (s, ⟨rid, pkt, now + timeout⟩) :: p.inFlight, p.waitQueue⟩, []))
    ∧ (p.waitQueue.any (fun q => q.rid = rid) = true →
      tcp_step now p (.timerFire rid)
        = (⟨p.freeSlots, p.inFlight, remove_waiting rid p.waitQueue⟩,
            [TcpOut.timeoutCb rid]))
    ∧ (∀ s fs q qs, p.freeSlots = s :: fs → p.waitQueue = q :: qs →
      tcp_dispatch p = ⟨fs, (s, q) :: p.inFlight, qs⟩)
    ∧ (∀ (evs : List (Nat × TcpEvent)) (p0 : TcpPool),
      tcp_has_rid p0 rid = false →
      (∀ e ∈ evs, is_submit_of rid e.2 = false) →
      tcp_has_rid (tcp_run evs p0).1 rid = false ∧
        ∀ o ∈ (tcp_run evs p0).2, out_for_rid rid o = false) := by
  refine ⟨?_, ?_, ?_, ?_, fun evs p0 h hsub => tcp_run_not_has rid evs p0 h hsub⟩
  · intro hf
    simp only [tcp_step, hf]
  · intro s fs hf
    simp only [tcp_step, hf]
  · intro hany
    simp only [tcp_step]
    rw [if_pos hany]
  · intro s fs q qs hf hw
    unfold tcp_dispatch
    rw [hf, hw]

/-- Witness for C6: with both slots busy, a submission is queued with its
deadline fixed at submission time 100 + 7. -/
theorem C6_tcp_wait_timeout_witness :
    tcp_step 100 ⟨[], [(0, ⟨1, [9], 50⟩)], []⟩ (.submit 2 [8] 7)
      = (⟨[], [(0, ⟨1, [9], 50⟩)], [⟨2, [8], 100 + 7⟩]⟩, []) :=
  (C6_tcp_wait_timeout 100 ⟨[], [(0, ⟨1, [9], 50⟩)], []⟩ 2 [8] 7).1 rfl

/-! ## C7: serviced-query attach-or-create -/

/-- C7: a submission whose key is already in the serviced index appends the
new subscriber to that entry and creates nothing (same keys, same length,
no new wire query); a submission with a fresh key inserts exactly one new
entry in state initial; and the at-most-one-entry-per-key invariant is
preserved. -/
theorem C7_attach_or_create (serviced : List ServicedQuery)
    (key : ServicedKey) (cb cb_arg : Nat) :
    (∀ e, serviced.find? (fun x => x.key = key) = some e →
      (outnet_serviced_query serviced key cb cb_arg).1.map ServicedQuery.key
          = serviced.map ServicedQuery.key ∧
        (outnet_serviced_query serviced key cb cb_arg).1.length
          = serviced.length ∧
        (outnet_serviced_query serviced key cb cb_arg).2.2 = false ∧
        (outnet_serviced_query serviced key cb cb_arg).2.1
          = { e with cblist := e.cblist ++ [⟨cb, cb_arg⟩] })
    ∧ (serviced.find? (fun x => x.key = key) = none →
      (outnet_serviced_query serviced key cb cb_arg).1
          = serviced ++ [⟨key, .serviced_initial, [⟨cb, cb_arg⟩]⟩] ∧
        (outnet_serviced_query serviced key cb cb_arg).2.1.status
          = .serviced_initial ∧
        (outnet_serviced_query serviced key cb cb_arg).2.2 = true)
    ∧ ((serviced.map ServicedQuery.key).Nodup →
        ((outnet_serviced_query serviced key cb cb_arg).1.map
          ServicedQuery.key).Nodup) := by
  refine ⟨?_, ?_, ?_⟩
  · intro e hfind
    simp only [outnet_serviced_query, hfind]
    refine ⟨?_, by simp, trivial, by trivial⟩
    rw [List.map_map]
    apply List.map_congr_left
    intro x _
    by_cases hx : x.key = key
    · simp [hx]
    · simp [hx]
  · intro hfind
    simp only [outnet_serviced_query, hfind]
    exact ⟨trivial, trivial, by trivial⟩
  · intro hnd
    cases hfind : serviced.find? (fun x => x.key = key) with
    | some e =>
      have h1 := (by
        simp only [outnet_serviced_query, hfind]
        rw [List.map_map]
        apply List.map_congr_left
        intro x _
        by_cases hx : x.key = key
        · simp [hx]
        · simp [hx] :
          (outnet_serviced_query serviced key cb cb_arg).1.map ServicedQuery.key
            = serviced.map ServicedQuery.key)
      rw [h1]
      exact hnd
    | none =>
      have hnotin : ∀ x ∈ serviced, ¬ x.key = key := by
        intro x hx
        have := List.find?_eq_none.mp hfind x hx
        simpa using this
      simp only [outnet_serviced_query, hfind]
      rw [List.map_append]
      simp only [List.map_cons, List.map_nil]
      rw [List.nodup_append]
      refine ⟨hnd, List.nodup_singleton _, ?_⟩
      intro k hk hk2
      rcases List.mem_map.mp hk with ⟨x, hx, rfl⟩
      exact hnotin x hx (by simpa using hk2)

/-- Witness for C7: submitting against an empty index creates a single
entry in state initial. -/
theorem C7_attach_or_create_witness :
    (outnet_serviced_query [] ⟨[1, 2], 5, true⟩ 1 2).1
      = [⟨⟨[1, 2], 5, true⟩, .serviced_initial, [⟨1, 2⟩]⟩] :=
  ((C7_attach_or_create [] ⟨[1, 2], 5, true⟩ 1 2).2.1 rfl).1

end Unbnd
